import Mathlib

/-!
Verification of the build-time resource-exclusion and restoration pipeline of
the easy-i18n Cocos Creator extension (source: the builder hooks module).

The embedding is shallow: JavaScript objects become association lists in
insertion order, JS `Set<string>` becomes a duplicate-free list in insertion
order, the filesystem becomes an explicit record of directories and file
contents, and every external collaborator call (editor asset-database API,
project-configuration store, JSON codec) becomes an oracle supplied in an
environment record.  Machine strings are Lean `String`s manipulated through
structural helpers over their character lists so that all definitions evaluate
by kernel reduction.
-/

set_option autoImplicit false

namespace EasyI18n

/-! ### Character-list string helpers

`String` operations used by the source (`split`, `includes`, `startsWith`,
`endsWith`, `path.basename`, `path.dirname`) are modelled by structural
functions over `String.data` so they reduce in the kernel. -/

/-- Boolean character membership, modelling JS `String.prototype.includes` for
a single-character needle. -/
def hasChar (c : Char) : List Char → Bool
  | [] => false
  | x :: xs => if x = c then true else hasChar c xs

/-- The segment of `l` after its last `'/'` (all of `l` when it has none):
the character-list core of Node's `path.basename`. -/
def lastSeg (l : List Char) : List Char :=
  (l.reverse.takeWhile (fun x => x != '/')).reverse

/-- Node `path.basename` on our flat path strings. -/
def baseNameStr (s : String) : String := ⟨lastSeg s.data⟩

/-- Node `path.dirname`: everything before the last `'/'`; `"."` when there is
no `'/'`; `"/"` when the last `'/'` is the leading character. -/
def dirNameStr (s : String) : String :=
  match s.data.reverse.dropWhile (fun x => x != '/') with
  | [] => "."
  | _ :: rest => if rest = [] then "/" else ⟨rest.reverse⟩

/-- Model: `true` when `pre` is a prefix of `l`, modelling JS `startsWith`. -/
def listStartsWith : List Char → List Char → Bool
  | [], _ => true
  | _ :: _, [] => false
  | p :: ps, x :: xs => if p = x then listStartsWith ps xs else false

/-- JS `s.startsWith(pre)`. -/
def strStartsWith (s pre : String) : Bool := listStartsWith pre.data s.data

/-- JS `s.endsWith(suf)`. -/
def strEndsWith (s suf : String) : Bool :=
  listStartsWith suf.data.reverse s.data.reverse

/-! ### Localization dataset model (types/i18n.ts)

JS objects keyed by strings are association lists in insertion order; the
editor guarantees unique keys.  `options` is a rendering-hints blob that the
build hook never inspects; it is carried as an uninterpreted optional string. -/

inductive I18nItemType where
  | text
  | sprite
deriving DecidableEq, Repr

structure I18nItemValue where
  text : String
  options : Option String := none
deriving DecidableEq, Repr

structure LanguageInfo where
  name : String
  code : String
deriving DecidableEq, Repr

structure I18nItem where
  type : I18nItemType
  value : List (String × I18nItemValue)
deriving DecidableEq, Repr

structure I18nData where
  languages : List LanguageInfo
  defaultLanguage : String
  items : List (String × I18nItem)
deriving DecidableEq, Repr

/-- JS object property lookup `obj[k]`: the (unique) binding for `k`. -/
def alookup {α : Type} (k : String) : List (String × α) → Option α
  | [] => none
  | (k', v) :: rest => if k' = k then some v else alookup k rest

/-! ### Resource usage analysis (hooks: parseResourceUUIDs, analyzeResourceUsage) -/

structure ResourceInfo where
  atlasUuid : Option String := none
  spriteUuid : Option String := none
deriving DecidableEq, Repr

/-- Source `parseResourceUUIDs(text)`:
`if (!text) return {}`; `cleanText = text.split('@')[0]` (everything before
the first `'@'` of the whole string); if `cleanText.includes(':')`, destructure
`cleanText.split(':')` into its first two segments; else the whole `cleanText`
is the sprite uuid. -/
def parseResourceUUIDs (text : String) : ResourceInfo :=
  if text = "" then {}
  else
    let cleanText := text.data.takeWhile (fun x => x != '@')
    if hasChar ':' cleanText then
      { atlasUuid := some ⟨cleanText.takeWhile (fun x => x != ':')⟩
        spriteUuid :=
          some ⟨((cleanText.dropWhile (fun x => x != ':')).drop 1).takeWhile
            (fun x => x != ':')⟩ }
    else
      { spriteUuid := some (⟨cleanText⟩ : String) }

/-- JS `Set<string>.add`: append when absent (insertion order preserved). -/
def setAdd (l : List String) (s : String) : List String :=
  if s ∈ l then l else l ++ [s]

/-- Model: `if (uuid) targetSet.add(uuid)`: a JS falsy (absent or empty) identifier
is not added. -/
def addIfTruthy (l : List String) (o : Option String) : List String :=
  match o with
  | some s => if s = "" then l else setAdd l s
  | none => l

structure ResourceAnalysis where
  defaultResources : List String
  nonDefaultResources : List String
  resourcesToMove : List String
deriving DecidableEq, Repr

/-- One `Object.entries(item.value).forEach` step of `analyzeResourceUsage`:
parse the stored text and add its truthy identifiers to the default set when
the language code equals the default language, else to the non-default set. -/
def addLangValue (dl : String) (sets : List String × List String)
    (lv : String × I18nItemValue) : List String × List String :=
  let info := parseResourceUUIDs lv.2.text
  if lv.1 = dl then
    (addIfTruthy (addIfTruthy sets.1 info.atlasUuid) info.spriteUuid, sets.2)
  else
    (sets.1, addIfTruthy (addIfTruthy sets.2 info.atlasUuid) info.spriteUuid)

/-- One item step: only `type === 'sprite'` items contribute. -/
def addItem (dl : String) (sets : List String × List String)
    (e : String × I18nItem) : List String × List String :=
  if e.2.type = I18nItemType.sprite then e.2.value.foldl (addLangValue dl) sets
  else sets

/-- Source `analyzeResourceUsage(i18nData)`: scan all sprite items, then
`resourcesToMove` collects each non-default uuid not in `defaultResources`. -/
def analyzeResourceUsage (d : I18nData) : ResourceAnalysis :=
  let sets := d.items.foldl (addItem d.defaultLanguage) ([], [])
  let toMove := sets.2.foldl
    (fun acc u => if u ∈ sets.1 then acc else setAdd acc u) []
  { defaultResources := sets.1
    nonDefaultResources := sets.2
    resourcesToMove := toMove }

/-! ### Narrowing transform (hooks: createCleanedData) -/

/-- The `Object.entries(i18nData.items).forEach` loop of `createCleanedData`:
keep a key exactly when `item.value[defaultLanguage]` is present (a present
`PerLanguageValue` object is always JS-truthy), narrowing its value map to the
default language binding. -/
def cleanItems (dl : String) (items : List (String × I18nItem)) :
    List (String × I18nItem) :=
  items.filterMap (fun e =>
    match alookup dl e.2.value with
    | some v => some (e.1, { type := e.2.type, value := [(dl, v)] })
    | none => none)

/-- Source `createCleanedData(i18nData)`. -/
def createCleanedData (d : I18nData) : I18nData :=
  { languages := d.languages.filter (fun lang => decide (lang.code = d.defaultLanguage))
    defaultLanguage := d.defaultLanguage
    items := cleanItems d.defaultLanguage d.items }

/-! ### Generic list lemmas used throughout -/

theorem takeWhile_all {α : Type} {p : α → Bool} {l : List α}
    (h : ∀ x ∈ l, p x = true) : l.takeWhile p = l := by
  induction l with
  | nil => rfl
  | cons x xs ih =>
    simp only [List.takeWhile_cons, h x (List.mem_cons_self x xs)]
    exact congrArg (x :: ·) (ih fun y hy => h y (List.mem_cons_of_mem x hy))

theorem dropWhile_all {α : Type} {p : α → Bool} {l : List α}
    (h : ∀ x ∈ l, p x = true) : l.dropWhile p = [] := by
  induction l with
  | nil => rfl
  | cons x xs ih =>
    simp only [List.dropWhile_cons, h x (List.mem_cons_self x xs), if_true]
    exact ih fun y hy => h y (List.mem_cons_of_mem x hy)

theorem takeWhile_append_stop {α : Type} {p : α → Bool} {y : α}
    (l₁ l₂ : List α) (hy : p y = false) :
    (l₁ ++ y :: l₂).takeWhile p = l₁.takeWhile p := by
  induction l₁ with
  | nil => simp [List.takeWhile_cons, hy]
  | cons x xs ih =>
    simp only [List.cons_append, List.takeWhile_cons]
    cases hpx : p x <;> simp [ih]

theorem dropWhile_append_stop {α : Type} {p : α → Bool} {y : α}
    (l₁ l₂ : List α) (hy : p y = false) :
    (l₁ ++ y :: l₂).dropWhile p = l₁.dropWhile p ++ y :: l₂ := by
  induction l₁ with
  | nil => simp [List.dropWhile_cons, hy]
  | cons x xs ih =>
    simp only [List.cons_append, List.dropWhile_cons]
    cases hpx : p x <;> simp [ih]

theorem takeWhile_append_all {α : Type} {p : α → Bool} {l₁ : List α}
    (l₂ : List α) (h : ∀ x ∈ l₁, p x = true) :
    (l₁ ++ l₂).takeWhile p = l₁ ++ l₂.takeWhile p := by
  induction l₁ with
  | nil => rfl
  | cons x xs ih =>
    simp only [List.cons_append, List.takeWhile_cons, h x (List.mem_cons_self x xs)]
    exact congrArg (x :: ·) (ih fun y hy => h y (List.mem_cons_of_mem x hy))

theorem hasChar_append (c : Char) (l₁ l₂ : List Char) :
    hasChar c (l₁ ++ l₂) = (hasChar c l₁ || hasChar c l₂) := by
  induction l₁ with
  | nil => rfl
  | cons x xs ih =>
    simp only [List.cons_append, hasChar]
    split <;> simp [ih]

theorem ne_of_hasChar_false {c : Char} {l : List Char}
    (h : hasChar c l = false) : ∀ x ∈ l, (x != c) = true := by
  induction l with
  | nil => intro x hx; cases hx
  | cons y ys ih =>
    intro x hx
    rw [hasChar] at h
    rcases List.mem_cons.mp hx with rfl | hx'
    · split at h
      · cases h
      · simpa [bne] using ‹¬ x = c›
    · split at h
      · cases h
      · exact ih h x hx'

theorem hasChar_false_of_all {c : Char} {l : List Char}
    (h : ∀ x ∈ l, x ≠ c) : hasChar c l = false := by
  induction l with
  | nil => rfl
  | cons y ys ih =>
    rw [hasChar]
    split
    · exact absurd ‹y = c› (h y (List.mem_cons_self y ys))
    · exact ih fun x hx => h x (List.mem_cons_of_mem y hx)

/-! ### C1 — exclusivity of `resourcesToMove` -/

/-- Model: `u` is one of the (JS-truthy) identifiers carried by a parse result. -/
def mentionsInfo (i : ResourceInfo) (u : String) : Prop :=
  (i.atlasUuid = some u ∨ i.spriteUuid = some u) ∧ u ≠ ""

theorem mem_setAdd {l : List String} {s x : String} :
    x ∈ setAdd l s ↔ x ∈ l ∨ x = s := by
  unfold setAdd
  split
  · constructor
    · exact Or.inl
    · rintro (h | rfl)
      · exact h
      · assumption
  · simp

theorem mem_addIfTruthy {l : List String} {o : Option String} {x : String} :
    x ∈ addIfTruthy l o ↔ x ∈ l ∨ (o = some x ∧ x ≠ "") := by
  cases o with
  | none => simp [addIfTruthy]
  | some s =>
    simp only [addIfTruthy]
    split
    · next hs =>
      subst hs
      constructor
      · exact Or.inl
      · rintro (h | ⟨hx, hne⟩)
        · exact h
        · injection hx with hx
          exact absurd hx.symm hne
    · next hs =>
      rw [mem_setAdd]
      constructor
      · rintro (h | rfl)
        · exact Or.inl h
        · exact Or.inr ⟨rfl, hs⟩
      · rintro (h | ⟨hx, _⟩)
        · exact Or.inl h
        · injection hx with hx
          exact Or.inr hx.symm

theorem mem_fst_addLangValue {dl : String} {sets : List String × List String}
    {lv : String × I18nItemValue} {x : String} (h : x ∈ sets.1) :
    x ∈ (addLangValue dl sets lv).1 := by
  unfold addLangValue
  split
  · exact mem_addIfTruthy.mpr (Or.inl (mem_addIfTruthy.mpr (Or.inl h)))
  · exact h

theorem mem_fst_foldValues {dl : String} (vl : List (String × I18nItemValue))
    (sets : List String × List String) {x : String} (h : x ∈ sets.1) :
    x ∈ (vl.foldl (addLangValue dl) sets).1 := by
  induction vl generalizing sets with
  | nil => exact h
  | cons lv t ih => exact ih _ (mem_fst_addLangValue h)

theorem capture_foldValues {dl : String} {vl : List (String × I18nItemValue)}
    (sets : List String × List String) {v : I18nItemValue} {x : String}
    (hv : (dl, v) ∈ vl) (hx : mentionsInfo (parseResourceUUIDs v.text) x) :
    x ∈ (vl.foldl (addLangValue dl) sets).1 := by
  induction vl generalizing sets with
  | nil => cases hv
  | cons lv t ih =>
    rcases List.mem_cons.mp hv with rfl | hv'
    · refine mem_fst_foldValues t _ ?_
      have : x ∈ (addLangValue dl sets (dl, v)).1 := by
        unfold addLangValue
        rw [if_pos rfl]
        rcases hx.1 with hatlas | hsprite
        · exact mem_addIfTruthy.mpr
            (Or.inl (mem_addIfTruthy.mpr (Or.inr ⟨hatlas, hx.2⟩)))
        · exact mem_addIfTruthy.mpr (Or.inr ⟨hsprite, hx.2⟩)
      simpa using this
    · exact ih _ hv'

theorem mem_fst_addItem {dl : String} {sets : List String × List String}
    {e : String × I18nItem} {x : String} (h : x ∈ sets.1) :
    x ∈ (addItem dl sets e).1 := by
  unfold addItem
  split
  · exact mem_fst_foldValues _ _ h
  · exact h

theorem mem_fst_foldItems {dl : String} (items : List (String × I18nItem))
    (sets : List String × List String) {x : String} (h : x ∈ sets.1) :
    x ∈ (items.foldl (addItem dl) sets).1 := by
  induction items generalizing sets with
  | nil => exact h
  | cons e t ih => exact ih _ (mem_fst_addItem h)

theorem capture_foldItems {dl : String} {items : List (String × I18nItem)}
    (sets : List String × List String) {k : String} {item : I18nItem}
    {v : I18nItemValue} {x : String}
    (hk : (k, item) ∈ items) (hsprite : item.type = I18nItemType.sprite)
    (hv : (dl, v) ∈ item.value)
    (hx : mentionsInfo (parseResourceUUIDs v.text) x) :
    x ∈ (items.foldl (addItem dl) sets).1 := by
  induction items generalizing sets with
  | nil => cases hk
  | cons e t ih =>
    rcases List.mem_cons.mp hk with rfl | hk'
    · refine mem_fst_foldItems t _ ?_
      unfold addItem
      rw [if_pos hsprite]
      exact capture_foldValues sets hv hx
    · exact ih _ hk'

theorem mem_toMove_fold (defaults : List String) (l acc : List String) (x : String) :
    x ∈ l.foldl (fun acc u => if u ∈ defaults then acc else setAdd acc u) acc ↔
      x ∈ acc ∨ (x ∈ l ∧ x ∉ defaults) := by
  induction l generalizing acc with
  | nil => simp
  | cons u t ih =>
    simp only [List.foldl_cons]
    rw [ih]
    by_cases hu : u ∈ defaults
    · simp only [if_pos hu]
      constructor
      · rintro (h | h)
        · exact Or.inl h
        · exact Or.inr ⟨List.mem_cons_of_mem u h.1, h.2⟩
      · rintro (h | ⟨hm, hnd⟩)
        · exact Or.inl h
        · rcases List.mem_cons.mp hm with rfl | hm'
          · exact absurd hu hnd
          · exact Or.inr ⟨hm', hnd⟩
    · simp only [if_neg hu]
      rw [mem_setAdd]
      constructor
      · rintro ((h | rfl) | h)
        · exact Or.inl h
        · exact Or.inr ⟨List.mem_cons_self _ _, hu⟩
        · exact Or.inr ⟨List.mem_cons_of_mem u h.1, h.2⟩
      · rintro (h | ⟨hm, hnd⟩)
        · exact Or.inl (Or.inl h)
        · rcases List.mem_cons.mp hm with rfl | hm'
          · exact Or.inl (Or.inr rfl)
          · exact Or.inr ⟨hm', hnd⟩

/-- C1: `resourcesToMove` is exactly `nonDefaultResources` minus
`defaultResources`; in particular, any identifier mentioned by a
default-language sprite value (hence in `defaultResources`) is never moved,
even when non-default languages also reference it. -/
theorem analyze_resourcesToMove_exclusive (d : I18nData) :
    (∀ u, u ∈ (analyzeResourceUsage d).resourcesToMove ↔
      (u ∈ (analyzeResourceUsage d).nonDefaultResources ∧
        u ∉ (analyzeResourceUsage d).defaultResources))
    ∧ (∀ (k : String) (item : I18nItem) (v : I18nItemValue) (u : String),
        (k, item) ∈ d.items → item.type = I18nItemType.sprite →
        (d.defaultLanguage, v) ∈ item.value →
        mentionsInfo (parseResourceUUIDs v.text) u →
        u ∉ (analyzeResourceUsage d).resourcesToMove) := by
  constructor
  · intro u
    simp only [analyzeResourceUsage]
    rw [mem_toMove_fold]
    simp
  · intro k item v u hk hsprite hv hm hmem
    have hdef : u ∈ (d.items.foldl (addItem d.defaultLanguage) ([], [])).1 :=
      capture_foldItems ([], []) hk hsprite hv hm
    simp only [analyzeResourceUsage] at hmem
    rw [mem_toMove_fold] at hmem
    rcases hmem with h | h
    · cases h
    · exact h.2 hdef

/-- Witness for C1: spec scenario 7 — `en` uses `atlasA:frameY`, `fr` uses
`atlasA:frameX`; `atlasA` is shared so only `frameX` moves. -/
def exDataC1 : I18nData :=
  { languages := [⟨"English", "en"⟩, ⟨"Français", "fr"⟩]
    defaultLanguage := "en"
    items := [("hero",
      { type := I18nItemType.sprite
        value := [("en", { text := "atlasA:frameY" }),
                  ("fr", { text := "atlasA:frameX" })] })] }

theorem analyze_resourcesToMove_exclusive_witness :
    "atlasA" ∉ (analyzeResourceUsage exDataC1).resourcesToMove ∧
      "frameX" ∈ (analyzeResourceUsage exDataC1).resourcesToMove :=
  ⟨(analyze_resourcesToMove_exclusive exDataC1).2 "hero"
      { type := I18nItemType.sprite
        value := [("en", { text := "atlasA:frameY" }),
                  ("fr", { text := "atlasA:frameX" })] }
      { text := "atlasA:frameY" } "atlasA"
      (by decide) rfl (by decide) ⟨Or.inl (by decide), by decide⟩,
    by decide⟩

/-! ### C6 — idempotence of the narrowing transform -/

theorem cleanItems_cons_none {dl k : String} {it : I18nItem}
    {t : List (String × I18nItem)} (h : alookup dl it.value = none) :
    cleanItems dl ((k, it) :: t) = cleanItems dl t := by
  simp only [cleanItems, List.filterMap_cons, h]

theorem cleanItems_cons_some {dl k : String} {it : I18nItem} {v : I18nItemValue}
    {t : List (String × I18nItem)} (h : alookup dl it.value = some v) :
    cleanItems dl ((k, it) :: t) =
      (k, { type := it.type, value := [(dl, v)] }) :: cleanItems dl t := by
  simp only [cleanItems, List.filterMap_cons, h]

theorem cleanItems_idem (dl : String) (items : List (String × I18nItem)) :
    cleanItems dl (cleanItems dl items) = cleanItems dl items := by
  induction items with
  | nil => rfl
  | cons e t ih =>
    obtain ⟨k, it⟩ := e
    cases h : alookup dl it.value with
    | none => rw [cleanItems_cons_none h, ih]
    | some v =>
      rw [cleanItems_cons_some h]
      rw [cleanItems_cons_some
        (show alookup dl (I18nItem.mk it.type [(dl, v)]).value = some v by
          simp [alookup])]
      rw [ih]

/-- C6: the narrowing transform is idempotent — applying it twice equals
applying it once (so an already-narrowed dataset is returned unchanged). -/
theorem createCleanedData_idempotent (d : I18nData) :
    createCleanedData (createCleanedData d) = createCleanedData d := by
  unfold createCleanedData
  simp only []
  rw [cleanItems_idem, List.filter_filter]
  simp [Bool.and_self]

/-! ### C10 — a key is kept iff the default language has an entry -/

/-- C10: in the narrowing transform a key is dropped iff its value map has no
binding at all for the default language; since the condition only tests
presence of the binding (JS-truthiness of the value object), a present entry
with empty `text` keeps the key. -/
theorem cleaned_keeps_key_iff (d : I18nData) (k : String) :
    (∃ it, (k, it) ∈ (createCleanedData d).items) ↔
      (∃ it, (k, it) ∈ d.items ∧
        (alookup d.defaultLanguage it.value).isSome = true) := by
  simp only [createCleanedData, cleanItems, List.mem_filterMap]
  constructor
  · rintro ⟨it, e, he, hf⟩
    cases h : alookup d.defaultLanguage e.2.value with
    | none => rw [h] at hf; cases hf
    | some v =>
      rw [h] at hf
      injection hf with hf'
      have hk : e.1 = k := congrArg Prod.fst hf'
      refine ⟨e.2, ?_, by rw [h]; rfl⟩
      rw [← hk]
      exact Prod.mk.eta ▸ he
  · rintro ⟨it, hmem, hsome⟩
    cases h : alookup d.defaultLanguage it.value with
    | none => rw [h] at hsome; cases hsome
    | some v =>
      exact ⟨{ type := it.type, value := [(d.defaultLanguage, v)] },
        (k, it), hmem, by simp [h]⟩

/-- Witness for C10 at a concrete dataset whose default-language entry has
empty text: the key is still kept. -/
def exDataC10 : I18nData :=
  { languages := [⟨"English", "en"⟩]
    defaultLanguage := "en"
    items := [("title", { type := I18nItemType.text
                          value := [("en", { text := "" })] })] }

theorem cleaned_keeps_key_iff_witness :
    ∃ it, ("title", it) ∈ (createCleanedData exDataC10).items :=
  (cleaned_keeps_key_iff exDataC10 "title").mpr
    ⟨{ type := I18nItemType.text, value := [("en", { text := "" })] },
      by decide, by decide⟩

/-! ### C5 — the parser strips `@` from the whole string, not per half -/

/-- Modelled from the spec's words, for comparison with the source parser:
"split on first `:`, strip `@...` suffix from each half independently". -/
def parseResourceUUIDsSpec (text : String) : ResourceInfo :=
  if text = "" then {}
  else if hasChar ':' text.data then
    { atlasUuid :=
        some ⟨(text.data.takeWhile (fun x => x != ':')).takeWhile (fun x => x != '@')⟩
      spriteUuid :=
        some ⟨((text.data.dropWhile (fun x => x != ':')).drop 1).takeWhile
          (fun x => x != '@')⟩ }
  else { spriteUuid := some ⟨text.data.takeWhile (fun x => x != '@')⟩ }

/-- Counterexample to C5: on `"a@x:b"` the source parser strips from the first
`'@'` of the whole string first, losing the `':'` and the sprite half, whereas
stripping each half independently (the claim) would yield atlas `"a"`,
sprite `"b"`. -/
theorem parseResourceUUIDs_per_half_cex :
    parseResourceUUIDs "a@x:b" = { atlasUuid := none, spriteUuid := some "a" } ∧
    parseResourceUUIDsSpec "a@x:b" = { atlasUuid := some "a", spriteUuid := some "b" } ∧
    parseResourceUUIDs "a@x:b" ≠ parseResourceUUIDsSpec "a@x:b" := by
  decide

/-- C5 amended: the parser first strips everything from the first `'@'` of the
whole string, then splits on `':'` keeping the first two segments.  Hence, for
halves free of `':'` and `'@'`: a composite parses to its two halves, an
`@`-suffix after the sprite half is stripped, a bare identifier is a sprite
uuid, and an `@`-suffix on a bare identifier is stripped — but no `':'` hidden
behind a `'@'` is ever seen (the counterexample above). -/
theorem parseResourceUUIDs_amended (a b c : String)
    (ha : hasChar ':' a.data = false) (ha' : hasChar '@' a.data = false)
    (hb : hasChar ':' b.data = false) (hb' : hasChar '@' b.data = false) :
    (parseResourceUUIDs (a ++ ":" ++ b) =
      { atlasUuid := some a, spriteUuid := some b })
    ∧ (parseResourceUUIDs (a ++ ":" ++ b ++ "@" ++ c) =
      { atlasUuid := some a, spriteUuid := some b })
    ∧ (a ≠ "" → parseResourceUUIDs a = { atlasUuid := none, spriteUuid := some a })
    ∧ (parseResourceUUIDs (a ++ "@" ++ c) =
      { atlasUuid := none, spriteUuid := some a }) := by
  have hAat := ne_of_hasChar_false ha'
  have hAcol := ne_of_hasChar_false ha
  have hBat := ne_of_hasChar_false hb'
  have hBcol := ne_of_hasChar_false hb
  have hdata : ∀ s t : String, (s ++ t).data = s.data ++ t.data := fun _ _ => rfl
  have hcolon : (":" : String).data = [':'] := rfl
  have hat : ("@" : String).data = ['@'] := rfl
  refine ⟨?_, ?_, ?_, ?_⟩
  · have hne : (a ++ ":" ++ b) ≠ "" := by
      intro h
      have : (a ++ ":" ++ b).data = [] := congrArg String.data h
      simp [hdata, hcolon] at this
    rw [parseResourceUUIDs, if_neg hne]
    have hd : (a ++ ":" ++ b).data = a.data ++ ':' :: b.data := by
      simp [hdata, hcolon]
    rw [hd]
    have hclean : (a.data ++ ':' :: b.data).takeWhile (fun x => x != '@') =
        a.data ++ ':' :: b.data := by
      refine takeWhile_all fun x hx => ?_
      rcases List.mem_append.mp hx with hxa | hxb
      · exact hAat x hxa
      · rcases List.mem_cons.mp hxb with rfl | hxb'
        · decide
        · exact hBat x hxb'
    rw [hclean]
    have hhas : hasChar ':' (a.data ++ ':' :: b.data) = true := by
      rw [hasChar_append]
      simp [hasChar]
    rw [if_pos hhas]
    have htake : (a.data ++ ':' :: b.data).takeWhile (fun x => x != ':') = a.data := by
      rw [takeWhile_append_stop _ _ (by decide)]
      exact takeWhile_all hAcol
    have hdrop : (a.data ++ ':' :: b.data).dropWhile (fun x => x != ':') = ':' :: b.data := by
      rw [dropWhile_append_stop _ _ (by decide)]
      rw [dropWhile_all hAcol]
      rfl
    rw [htake, hdrop]
    simp only [List.drop_one, List.tail_cons]
    rw [takeWhile_all hBcol]
  · have hne : (a ++ ":" ++ b ++ "@" ++ c) ≠ "" := by
      intro h
      have : (a ++ ":" ++ b ++ "@" ++ c).data = [] := congrArg String.data h
      simp [hdata, hcolon, hat] at this
    rw [parseResourceUUIDs, if_neg hne]
    have hd : (a ++ ":" ++ b ++ "@" ++ c).data =
        (a.data ++ ':' :: b.data) ++ '@' :: c.data := by
      simp [hdata, hcolon, hat]
    rw [hd]
    have hclean : ((a.data ++ ':' :: b.data) ++ '@' :: c.data).takeWhile
        (fun x => x != '@') = a.data ++ ':' :: b.data := by
      rw [takeWhile_append_stop _ _ (by decide)]
      refine takeWhile_all fun x hx => ?_
      rcases List.mem_append.mp hx with hxa | hxb
      · exact hAat x hxa
      · rcases List.mem_cons.mp hxb with rfl | hxb'
        · decide
        · exact hBat x hxb'
    rw [hclean]
    have hhas : hasChar ':' (a.data ++ ':' :: b.data) = true := by
      rw [hasChar_append]
      simp [hasChar]
    rw [if_pos hhas]
    have htake : (a.data ++ ':' :: b.data).takeWhile (fun x => x != ':') = a.data := by
      rw [takeWhile_append_stop _ _ (by decide)]
      exact takeWhile_all hAcol
    have hdrop : (a.data ++ ':' :: b.data).dropWhile (fun x => x != ':') = ':' :: b.data := by
      rw [dropWhile_append_stop _ _ (by decide)]
      rw [dropWhile_all hAcol]
      rfl
    rw [htake, hdrop]
    simp only [List.drop_one, List.tail_cons]
    rw [takeWhile_all hBcol]
  · intro hne
    rw [parseResourceUUIDs, if_neg hne]
    rw [takeWhile_all hAat]
    rw [if_neg (by simp [ha])]
  · have hne : (a ++ "@" ++ c) ≠ "" := by
      intro h
      have : (a ++ "@" ++ c).data = [] := congrArg String.data h
      simp [hdata, hat] at this
    rw [parseResourceUUIDs, if_neg hne]
    have hd : (a ++ "@" ++ c).data = a.data ++ '@' :: c.data := by
      simp [hdata, hat]
    rw [hd]
    have hclean : (a.data ++ '@' :: c.data).takeWhile (fun x => x != '@') = a.data := by
      rw [takeWhile_append_stop _ _ (by decide)]
      exact takeWhile_all hAat
    rw [hclean]
    rw [if_neg (by simp [ha])]

theorem parseResourceUUIDs_amended_witness :
    parseResourceUUIDs ("c3e350db" ++ ":" ++ "9a1b2c" ++ "@" ++ "f9941") =
      { atlasUuid := some "c3e350db", spriteUuid := some "9a1b2c" } :=
  (parseResourceUUIDs_amended "c3e350db" "9a1b2c" "f9941"
    (by decide) (by decide) (by decide) (by decide)).2.1

/-! ### Effect model: filesystem, external collaborators, pipeline state

The hooks module mutates two globals (`tempMovedFiles`, `backupI18nInfo`), the
filesystem, and the editor's asset database.  The filesystem is a record of
existing directories and file contents; asset-database mutations are traced.
Every collaborator call that can fail or whose answer the code merely consumes
is an oracle field of `Env`; fault oracles decide which filesystem syscalls
throw.  JS exceptions are `Except.error`; a source `try { … } catch { log }`
is `logCatch`. -/

structure FS where
  dirs : List String
  files : List (String × String)
deriving DecidableEq, Repr

/-- Replace the binding of `p` (or append it), preserving insertion order. -/
def setEntry : List (String × String) → String → String → List (String × String)
  | [], p, c => [(p, c)]
  | (k, v) :: rest, p, c =>
    if k = p then (p, c) :: rest else (k, v) :: setEntry rest p c

def removeEntry (p : String) : List (String × String) → List (String × String)
  | [] => []
  | (k, v) :: rest =>
    if k = p then removeEntry p rest else (k, v) :: removeEntry p rest

def FS.read (fs : FS) (p : String) : Option String := alookup p fs.files

/-- Model: `fs.existsSync`: true for directories and files alike. -/
def FS.existsPath (fs : FS) (p : String) : Bool :=
  decide (p ∈ fs.dirs) || (fs.read p).isSome

def FS.setFile (fs : FS) (p c : String) : FS :=
  { fs with files := setEntry fs.files p c }

def FS.addDir (fs : FS) (d : String) : FS :=
  { fs with dirs := if d ∈ fs.dirs then fs.dirs else fs.dirs ++ [d] }

def FS.removeFile (fs : FS) (p : String) : FS :=
  { fs with files := removeEntry p fs.files }

/-- Model: `fs.rmSync(d, {recursive: true, force: true})`. -/
def FS.rmTree (fs : FS) (d : String) : FS :=
  { dirs := fs.dirs.filter (fun x => !(x == d || strStartsWith x (d ++ "/")))
    files := fs.files.filter (fun e => !(e.1 == d || strStartsWith e.1 (d ++ "/"))) }

/-- Model: `fs.readdirSync(d)`: base names of the entries directly inside `d`. -/
def FS.readdir (fs : FS) (d : String) : List String :=
  ((fs.files.map Prod.fst) ++ fs.dirs).filterMap
    (fun p => if dirNameStr p = d then some (baseNameStr p) else none)

structure AssetInfo where
  uuid : String
  url : Option String
deriving DecidableEq, Repr

structure MovedFileInfo where
  originalPath : String
  tempPath : String
  metaPath : Option String
  tempMetaPath : Option String
  uuid : Option String
  url : Option String
deriving DecidableEq, Repr

structure BackupInfo where
  originalPath : String
  backupPath : String
  originalData : I18nData
deriving DecidableEq, Repr

/-- Oracles for all external collaborators.  The `file.*` helpers of the
repository catch internally and return null/false, so they never throw; the
raw `fs.*Sync` calls throw according to the fault oracles.  `parseI18n`
models `util.safeJsonParse` plus the hook's field-presence validation
(`none` = unparsable or missing `languages`/`defaultLanguage`/`items`);
`stringifyI18n` models `JSON.stringify(·, null, 2)`. -/
structure Env where
  pluginTempDir : String
  exportPathCfg : Option String
  getAssetDbUrl : String → Option String
  assetDbUrlToPath : String → String
  queryPath : String → Option String
  queryAssetInfo : String → Option AssetInfo
  deleteAssetOk : String → Bool
  parseI18n : String → Option I18nData
  stringifyI18n : I18nData → String
  stringifyRecords : List MovedFileInfo → String
  copyFails : String → String → Bool
  mkdirFails : String → Bool
  writeFails : String → Bool
  unlinkFails : String → Bool
  rmFails : String → Bool
  refreshFails : Bool

/-- Pipeline state: filesystem, the two module globals, and a trace of
asset-database mutations (delete requests and refresh requests). -/
structure St where
  fs : FS
  tempMovedFiles : List MovedFileInfo
  backupI18nInfo : Option BackupInfo
  deleteCalls : List String
  refreshCalls : Nat
deriving DecidableEq, Repr

/-- Model: `try { … } catch (e) { log }`: an error is swallowed, the state at the
point of failure is kept, and the given default is returned. -/
def logCatch {α : Type} (r : St × Except String α) (dflt : α) :
    St × Except String α :=
  match r with
  | (s, Except.ok a) => (s, Except.ok a)
  | (s, Except.error _) => (s, Except.ok dflt)

def JSON_NAME : String := "i18n-data"
def MOVED_ASSETS_DIR : String := "moved-assets"
def BACKUP_FILENAME : String := "i18n-data-backup.json"
def FAILED_RESOURCES_FILE : String := "failed_resources.json"

/-- Directory path helper: `path.join(pluginTempDir, PLUGIN.MOVED_ASSETS_DIR)`. -/
def tempAssetsDirOf (env : Env) : String :=
  env.pluginTempDir ++ "/" ++ MOVED_ASSETS_DIR

/-- Model: `fs.copyFileSync(src, dst)`: throws when the source is not a readable
file or the fault oracle fires (the oracle also covers a missing destination
directory). -/
def copyFileSync (env : Env) (src dst : String) (s : St) :
    St × Except String Unit :=
  match s.fs.read src with
  | none => (s, Except.error "ENOENT")
  | some c =>
    if env.copyFails src dst then (s, Except.error "EIO")
    else ({ s with fs := s.fs.setFile dst c }, Except.ok ())

/-- Model: `fs.mkdirSync(d, {recursive: true})`. -/
def mkdirSyncRec (env : Env) (d : String) (s : St) : St × Except String Unit :=
  if env.mkdirFails d then (s, Except.error "EPERM")
  else ({ s with fs := s.fs.addDir d }, Except.ok ())

/-- Raw `fs.writeFileSync` (used for the failure ledger). -/
def writeFileSyncRaw (env : Env) (p c : String) (s : St) :
    St × Except String Unit :=
  if env.writeFails p then (s, Except.error "EIO")
  else ({ s with fs := s.fs.setFile p c }, Except.ok ())

/-- Model: `file.ensureDir` — never throws, returns success. -/
def ensureDir (env : Env) (d : String) (s : St) : St × Bool :=
  if s.fs.existsPath d then (s, true)
  else if env.mkdirFails d then (s, false)
  else ({ s with fs := s.fs.addDir d }, true)

/-- Model: `file.writeFile` — ensures the parent directory, then writes; never
throws, returns success (the hooks ignore the result). -/
def fileWriteFile (env : Env) (p c : String) (s : St) : St × Bool :=
  let s1 := (ensureDir env (dirNameStr p) s).1
  if env.writeFails p then (s1, false)
  else ({ s1 with fs := s1.fs.setFile p c }, true)

/-- Model: `file.deleteAsset(url)` — never throws; result ignored by the hook.  On
editor success the asset file backing the url and its `.meta` are removed;
at the hook's call site that backing path is the computed `assetPath`. -/
def deleteAsset (env : Env) (url assetPath : String) (s : St) : St :=
  let s1 := { s with deleteCalls := s.deleteCalls ++ [url] }
  if env.deleteAssetOk url then
    { s1 with fs := (s1.fs.removeFile assetPath).removeFile (assetPath ++ ".meta") }
  else s1

/-- Hook-module `getPluginTempDir()`: ensure the plugin temp dir, return it. -/
def getPluginTempDir (env : Env) (s : St) : St × String :=
  ((ensureDir env env.pluginTempDir s).1, env.pluginTempDir)

/-- Model: `Editor.Message.request('asset-db', 'refresh-asset', …)`. -/
def refreshAssetDb (env : Env) (s : St) : St × Except String Unit :=
  let s1 := { s with refreshCalls := s.refreshCalls + 1 }
  if env.refreshFails then (s1, Except.error "refresh") else (s1, Except.ok ())

/-! ### getI18nFilePath (pure given the oracles; a thrown error is `none`) -/

/-- First half of `getI18nFilePath`: normalize the configured export path to a
`db://` URL carrying the JSON file name; `none` models the explicit throws
(`!relativePath`, unresolvable path). -/
def resolveDbPath (env : Env) : Option String :=
  match env.exportPathCfg with
  | none => none
  | some relativePath =>
    if relativePath = "" then none
    else if strStartsWith relativePath "project://" then
      some ("db://" ++ (⟨relativePath.data.drop 10⟩ : String) ++ "/" ++ JSON_NAME ++ ".json")
    else if strStartsWith relativePath "db://" then
      let baseUrl := if strEndsWith relativePath "/" then
        (⟨relativePath.data.dropLast⟩ : String) else relativePath
      some (baseUrl ++ "/" ++ JSON_NAME ++ ".json")
    else
      match env.getAssetDbUrl relativePath with
      | none => none
      | some dbUrl =>
        if dbUrl = "" then none
        else some (dbUrl ++ "/" ++ JSON_NAME ++ ".json")

/-- Model: `getI18nFilePath`: resolve the db path, then `file.queryPath`; a falsy
answer is the `多语言文件不存在` throw, modelled as `none`. -/
def getI18nFilePath (env : Env) : Option String :=
  match resolveDbPath env with
  | none => none
  | some dbPath =>
    match env.queryPath dbPath with
    | none => none
    | some fullPath => if fullPath = "" then none else some fullPath

/-! ### Resource eviction (moveResourcesToTemp) -/

/-- Model: `uuid.split('@')[0]`. -/
def cleanUuidOf (u : String) : String :=
  ⟨u.data.takeWhile (fun x => x != '@')⟩

/-- Body of one iteration of the eviction loop, before its `catch`. -/
def evictOneCore (env : Env) (tempAssetsDir : String) (s : St) (uuid : String) :
    St × Except String Unit :=
  let cleanUuid := cleanUuidOf uuid
  match env.queryAssetInfo cleanUuid with
  | none => (s, Except.ok ())
  | some assetInfo =>
    let fromUrl : Option String := assetInfo.url.map env.assetDbUrlToPath
    let needFallback :=
      match fromUrl with
      | none => true
      | some p => p = "" || !(s.fs.existsPath p)
    match (if needFallback then env.queryPath assetInfo.uuid else fromUrl) with
    | none => (s, Except.ok ())
    | some assetPath =>
      if assetPath = "" || !(s.fs.existsPath assetPath) then (s, Except.ok ())
      else
        let tempPath := tempAssetsDir ++ "/" ++ cleanUuid ++ "_" ++ baseNameStr assetPath
        match copyFileSync env assetPath tempPath s with
        | (s1, Except.error e) => (s1, Except.error e)
        | (s1, Except.ok _) =>
          let metaPath := assetPath ++ ".meta"
          let metaExists := s1.fs.existsPath metaPath
          let tempMetaPath : Option String :=
            if metaExists then some (tempPath ++ ".meta") else none
          match (if metaExists then copyFileSync env metaPath (tempPath ++ ".meta") s1
                 else (s1, Except.ok ())) with
          | (s2, Except.error e) => (s2, Except.error e)
          | (s2, Except.ok _) =>
            let entry : MovedFileInfo :=
              { originalPath := assetPath
                tempPath := tempPath
                metaPath := if s2.fs.existsPath metaPath then some metaPath else none
                tempMetaPath := tempMetaPath
                uuid := some cleanUuid
                url := assetInfo.url }
            let s3 := { s2 with tempMovedFiles := s2.tempMovedFiles ++ [entry] }
            match assetInfo.url with
            | some url => (deleteAsset env url assetPath s3, Except.ok ())
            | none => (s3, Except.ok ())

/-- One iteration: the body's `catch` logs and continues. -/
def evictOne (env : Env) (tempAssetsDir : String) (s : St) (uuid : String) : St :=
  (logCatch (evictOneCore env tempAssetsDir s uuid) ()).1

def evictAll (env : Env) (tempAssetsDir : String) : List String → St → St
  | [], s => s
  | u :: rest, s => evictAll env tempAssetsDir rest (evictOne env tempAssetsDir s u)

/-- Model: `moveResourcesToTemp(resourcesToMove, tempAssetsDir)`. -/
def moveResourcesToTemp (env : Env) (resourcesToMove : List String)
    (tempAssetsDir : String) (s : St) : St :=
  if resourcesToMove.isEmpty then s
  else evictAll env tempAssetsDir resourcesToMove s

/-! ### Restoration (restoreMovedResources, restoreI18nFile) -/

/-- Model: `if (!fs.existsSync(dir)) fs.mkdirSync(dir, {recursive: true})` — the
directory-creation step of the restoration task, which may throw. -/
def ensureDirThrowing (env : Env) (d : String) (s : St) : St × Except String Unit :=
  if s.fs.existsPath d then (s, Except.ok ()) else mkdirSyncRec env d s

/-- One per-record restoration task.  Its async body contains no `await`, so
tasks of a batch run to completion sequentially in creation order; every throw
is caught by the task itself and reported as `false`. -/
def restoreOne (env : Env) (s : St) (fi : MovedFileInfo) : St × Bool :=
  if !(s.fs.existsPath fi.tempPath) then (s, false)
  else
    match ensureDirThrowing env (dirNameStr fi.originalPath) s with
    | (s1, Except.error _) => (s1, false)
    | (s1, Except.ok _) =>
      match copyFileSync env fi.tempPath fi.originalPath s1 with
      | (s2, Except.error _) => (s2, false)
      | (s2, Except.ok _) =>
        match fi.tempMetaPath, fi.metaPath with
        | some tmp, some mp =>
          if s2.fs.existsPath tmp then
            match ensureDirThrowing env (dirNameStr mp) s2 with
            | (s3, Except.error _) => (s3, false)
            | (s3, Except.ok _) =>
              match copyFileSync env tmp mp s3 with
              | (s4, Except.error _) => (s4, false)
              | (s4, Except.ok _) => (s4, true)
          else (s2, true)
        | _, _ => (s2, true)

/-- One batch (`Promise.all` over synchronous task bodies = sequential). -/
def processBatch (env : Env) : List MovedFileInfo → St → St × List (Bool × MovedFileInfo)
  | [], s => (s, [])
  | fi :: rest, s =>
    let r := restoreOne env s fi
    let pr := processBatch env rest r.1
    (pr.1, (r.2, fi) :: pr.2)

/-- The per-batch bookkeeping loop: failures whose staged file still exists
(checked after the batch settled) are pushed back onto `tempMovedFiles`. -/
def readdFailures (s : St) : List (Bool × MovedFileInfo) → St
  | [] => s
  | (success, fi) :: rest =>
    if success then readdFailures s rest
    else if s.fs.existsPath fi.tempPath then
      readdFailures { s with tempMovedFiles := s.tempMovedFiles ++ [fi] } rest
    else readdFailures s rest

/-- The `while (resourcesToRestore.length > 0)` splice loop, batch size 10.
`fuel` bounds the number of batches; since every batch consumes at least one
record, `records.length` is always enough fuel.  Returns (state, successCount,
failedCount). -/
def restoreBatches (env : Env) : Nat → List MovedFileInfo → St → St × Nat × Nat
  | _, [], s => (s, 0, 0)
  | 0, _ :: _, s => (s, 0, 0)
  | fuel + 1, l@(_ :: _), s =>
    let batch := l.take 10
    let rest := l.drop 10
    let pr := processBatch env batch s
    let s2 := readdFailures pr.1 pr.2
    let succ := (pr.2.filter (fun r => r.1)).length
    let fail := (pr.2.filter (fun r => !r.1)).length
    let tl := restoreBatches env fuel rest s2
    (tl.1, succ + tl.2.1, fail + tl.2.2)

/-- Model: `restoreMovedResources()`: snapshot and clear the global list, process it
in batches, then (on any success) request an asset-db refresh inside its own
`try/catch`. -/
def restoreMovedResources (env : Env) (s : St) : St :=
  if s.tempMovedFiles.isEmpty then s
  else
    let records := s.tempMovedFiles
    let s0 := { s with tempMovedFiles := [] }
    let r := restoreBatches env records.length records s0
    if r.2.1 > 0 then (logCatch (refreshAssetDb env r.1) ()).1 else r.1

/-- Model: `restoreI18nFile()`: copy the on-disk backup back when it exists, else
rewrite the original from the in-memory snapshot; clear `backupI18nInfo` on
success (the `file.writeFile` branch never throws, so it always clears). -/
def restoreI18nFile (env : Env) (s : St) : St :=
  match s.backupI18nInfo with
  | none => s
  | some b =>
    (logCatch
      (if s.fs.existsPath b.backupPath then
        match copyFileSync env b.backupPath b.originalPath s with
        | (s1, Except.error e) => (s1, Except.error e)
        | (s1, Except.ok _) => ({ s1 with backupI18nInfo := none }, Except.ok ())
      else
        let s1 := (fileWriteFile env b.originalPath
          (env.stringifyI18n b.originalData) s).1
        ({ s1 with backupI18nInfo := none }, Except.ok ())) ()).1

/-! ### cleanupTempFolder -/

/-- Model: `try { fs.unlinkSync(p) } catch { ignore }`. -/
def unlinkIgnoring (env : Env) (p : String) (s : St) : St :=
  if env.unlinkFails p then s else { s with fs := s.fs.removeFile p }

/-- The selective-deletion loop of `cleanupTempFolder(false)`. -/
def cleanupLoop (env : Env) (tempAssetsDir : String)
    (unresolvedNames : List String) : List String → St → St
  | [], s => s
  | f :: rest, s =>
    if f ∈ unresolvedNames then cleanupLoop env tempAssetsDir unresolvedNames rest s
    else if f = BACKUP_FILENAME then cleanupLoop env tempAssetsDir unresolvedNames rest s
    else if strEndsWith f ".meta" then cleanupLoop env tempAssetsDir unresolvedNames rest s
    else if f = FAILED_RESOURCES_FILE then cleanupLoop env tempAssetsDir unresolvedNames rest s
    else cleanupLoop env tempAssetsDir unresolvedNames rest
      (unlinkIgnoring env (tempAssetsDir ++ "/" ++ f) s)

/-- Model: `fs.rmSync(d, {recursive, force})` with its fault oracle. -/
def rmTreeOp (env : Env) (d : String) (s : St) : St × Except String Unit :=
  if env.rmFails d then (s, Except.error "EIO")
  else ({ s with fs := s.fs.rmTree d }, Except.ok ())

/-- Model: `cleanupTempFolder(removeAll)`. -/
def cleanupTempFolder (env : Env) (removeAll : Bool) (s : St) : St :=
  (logCatch
    (let s0 := (getPluginTempDir env s).1
     let tempAssetsDir := tempAssetsDirOf env
     if s0.fs.existsPath tempAssetsDir then
       if removeAll then rmTreeOp env tempAssetsDir s0
       else if s0.tempMovedFiles.isEmpty then rmTreeOp env tempAssetsDir s0
       else
         let files := s0.fs.readdir tempAssetsDir
         let unresolvedNames := s0.tempMovedFiles.map (fun f => baseNameStr f.tempPath)
         (cleanupLoop env tempAssetsDir unresolvedNames files s0, Except.ok ())
     else (s0, Except.ok ())) ()).1

/-! ### The three lifecycle hooks -/

/-- Body of `onBeforeBuild` before its outermost `catch`. -/
def onBeforeBuildCore (env : Env) (s : St) : St × Except String Unit :=
  match getI18nFilePath env with
  | none => (s, Except.ok ())
  | some i18nDataPath =>
    if !(s.fs.existsPath i18nDataPath) then (s, Except.ok ())
    else
      match s.fs.read i18nDataPath with
      | none => (s, Except.ok ())
      | some content =>
        if content = "" then (s, Except.ok ())
        else
          match env.parseI18n content with
          | none => (s, Except.ok ())
          | some d =>
            if d.defaultLanguage = "" then (s, Except.ok ())
            else
              let s1 := (getPluginTempDir env s).1
              let tempAssetsDir := tempAssetsDirOf env
              let s2 := (ensureDir env tempAssetsDir s1).1
              let backupPath := tempAssetsDir ++ "/" ++ BACKUP_FILENAME
              match copyFileSync env i18nDataPath backupPath s2 with
              | (s3, Except.error e) => (s3, Except.error e)
              | (s3, Except.ok _) =>
                let bk : BackupInfo := ⟨i18nDataPath, backupPath, d⟩
                let s4 := { s3 with backupI18nInfo := some bk }
                let analysis := analyzeResourceUsage d
                let cleaned := createCleanedData d
                let s5 := (fileWriteFile env i18nDataPath
                  (env.stringifyI18n cleaned) s4).1
                (moveResourcesToTemp env analysis.resourcesToMove tempAssetsDir s5,
                  Except.ok ())

/-- Model: `onBeforeBuild` lifecycle hook. -/
def onBeforeBuild (env : Env) (s : St) : St × Except String Unit :=
  logCatch (onBeforeBuildCore env s) ()

/-- The `.then` continuation of `onAfterBuild`'s background restoration:
persist the failure ledger (own `try/catch`) and clean up preserving
unresolved staged files. -/
def afterBuildContinuation (env : Env) (s : St) : St :=
  let s1 :=
    if s.tempMovedFiles.isEmpty then s
    else
      let s0 := (getPluginTempDir env s).1
      (logCatch (writeFileSyncRaw env
        (env.pluginTempDir ++ "/" ++ FAILED_RESOURCES_FILE)
        (env.stringifyRecords s0.tempMovedFiles) s0) ()).1
  cleanupTempFolder env false s1

/-- Model: `onAfterBuild` lifecycle hook.  The background promise chain
(`restoreMovedResources().then(…).catch(…)`) is modelled synchronously: the
host is single-threaded and the hook's settled result does not depend on it;
the trailing `.catch` means no rejection escapes. -/
def onAfterBuild (env : Env) (s : St) : St × Except String Unit :=
  logCatch
    (let s1 := restoreI18nFile env s
     let s2 := restoreMovedResources env s1
     (afterBuildContinuation env s2, Except.ok ())) ()

/-- Model: `unload` lifecycle hook: emergency restoration followed by a FULL cleanup
(`cleanupTempFolder()` with its `removeAll = true` default). -/
def unload (env : Env) (s : St) : St × Except String Unit :=
  logCatch
    (if s.backupI18nInfo.isSome || !s.tempMovedFiles.isEmpty then
      let s1 := restoreI18nFile env s
      let s2 := restoreMovedResources env s1
      (cleanupTempFolder env true s2, Except.ok ())
    else (s, Except.ok ())) ()

/-! ### Association-list and filesystem lemmas -/

theorem alookup_setEntry_self (l : List (String × String)) (p c : String) :
    alookup p (setEntry l p c) = some c := by
  induction l with
  | nil => simp [setEntry, alookup]
  | cons e t ih =>
    obtain ⟨k, v⟩ := e
    by_cases h : k = p
    · simp [setEntry, h, alookup]
    · simp [setEntry, h, alookup, ih]

theorem alookup_setEntry_other (l : List (String × String)) {p q : String}
    (c : String) (h : q ≠ p) : alookup q (setEntry l p c) = alookup q l := by
  have h' : p ≠ q := Ne.symm h
  induction l with
  | nil => simp [setEntry, alookup, h']
  | cons e t ih =>
    obtain ⟨k, v⟩ := e
    by_cases hk : k = p
    · subst hk
      simp [setEntry, alookup, h']
    · simp [setEntry, hk, alookup, ih]

theorem alookup_removeEntry_other (l : List (String × String)) {p q : String}
    (h : q ≠ p) : alookup q (removeEntry p l) = alookup q l := by
  have h' : p ≠ q := Ne.symm h
  induction l with
  | nil => rfl
  | cons e t ih =>
    obtain ⟨k, v⟩ := e
    by_cases hk : k = p
    · subst hk
      simp [removeEntry, alookup, ih, h']
    · simp [removeEntry, hk, alookup, ih]

theorem FS.read_setFile_self (fs : FS) (p c : String) :
    (fs.setFile p c).read p = some c :=
  alookup_setEntry_self fs.files p c

theorem FS.read_setFile_other (fs : FS) {p q : String} (c : String)
    (h : q ≠ p) : (fs.setFile p c).read q = fs.read q :=
  alookup_setEntry_other fs.files c h

theorem FS.read_removeFile_other (fs : FS) {p q : String} (h : q ≠ p) :
    (fs.removeFile p).read q = fs.read q :=
  alookup_removeEntry_other fs.files h

theorem FS.read_addDir (fs : FS) (d q : String) :
    (fs.addDir d).read q = fs.read q := rfl

theorem FS.existsPath_of_read {fs : FS} {p c : String}
    (h : fs.read p = some c) : fs.existsPath p = true := by
  simp [FS.existsPath, h]

theorem ensureDir_fields (env : Env) (d : String) (s : St) :
    ((ensureDir env d s).1).fs.files = s.fs.files ∧
    ((ensureDir env d s).1).tempMovedFiles = s.tempMovedFiles ∧
    ((ensureDir env d s).1).backupI18nInfo = s.backupI18nInfo := by
  unfold ensureDir
  split
  · exact ⟨rfl, rfl, rfl⟩
  · split
    · exact ⟨rfl, rfl, rfl⟩
    · exact ⟨rfl, rfl, rfl⟩

/-! ### Witness fixtures -/

def fsEmpty : FS := { dirs := [], files := [] }

def stEmpty : St :=
  { fs := fsEmpty, tempMovedFiles := [], backupI18nInfo := none,
    deleteCalls := [], refreshCalls := 0 }

/-- A benign collaborator environment for witnesses; individual witnesses
override the fields their scenario needs. -/
def envBase : Env :=
  { pluginTempDir := "tmp/easy-i18n"
    exportPathCfg := none
    getAssetDbUrl := fun _ => none
    assetDbUrlToPath := fun u => u
    queryPath := fun _ => none
    queryAssetInfo := fun _ => none
    deleteAssetOk := fun _ => true
    parseI18n := fun _ => none
    stringifyI18n := fun _ => "{}"
    stringifyRecords := fun _ => "[]"
    copyFails := fun _ _ => false
    mkdirFails := fun _ => false
    writeFails := fun _ => false
    unlinkFails := fun _ => false
    rmFails := fun _ => false
    refreshFails := false }

/-! ### C4 — lifecycle hooks never let an exception escape -/

theorem logCatch_unit_ok (r : St × Except String Unit) :
    (logCatch r ()).2 = Except.ok () := by
  obtain ⟨s, e⟩ := r
  cases e with
  | ok a => cases a; rfl
  | error _ => rfl

/-- C4: whatever the collaborators do (any filesystem or asset-store call may
fail via the fault oracles), each lifecycle hook settles successfully — its
outermost `catch` swallows every internal error. -/
theorem hooks_always_resolve (env : Env) (s : St) :
    (onBeforeBuild env s).2 = Except.ok () ∧
    (onAfterBuild env s).2 = Except.ok () ∧
    (unload env s).2 = Except.ok () :=
  ⟨logCatch_unit_ok _, logCatch_unit_ok _, logCatch_unit_ok _⟩

/-! ### C7 — pre-build aborts without mutation when unconfigured/missing -/

/-- The export-path configuration key is unset (JS-falsy). -/
def configMissing (env : Env) : Prop :=
  env.exportPathCfg = none ∨ env.exportPathCfg = some ""

/-- The configured path resolves, but the localization file cannot be found:
`file.queryPath` answers falsy, or the resolved path does not exist on disk. -/
def i18nFileNotFound (env : Env) (s : St) : Prop :=
  ∃ dbPath, resolveDbPath env = some dbPath ∧
    (env.queryPath dbPath = none ∨ env.queryPath dbPath = some "" ∨
      ∃ p, env.queryPath dbPath = some p ∧ s.fs.existsPath p = false)

theorem resolveDbPath_configMissing {env : Env} (h : configMissing env) :
    resolveDbPath env = none := by
  rcases h with h | h <;> simp [resolveDbPath, h]

/-- C7: when the export-path key is unset or the localization file cannot be
located, `onBeforeBuild` resolves having performed no mutation at all — no
backup, `backupI18nInfo` still as before, the moved-file list, filesystem and
asset-store trace untouched. -/
theorem onBeforeBuild_early_return (env : Env) (s : St)
    (h : configMissing env ∨ i18nFileNotFound env s) :
    onBeforeBuild env s = (s, Except.ok ()) := by
  rcases h with hc | ⟨dbp, hdb, hq⟩
  · have hg : getI18nFilePath env = none := by
      simp [getI18nFilePath, resolveDbPath_configMissing hc]
    simp [onBeforeBuild, onBeforeBuildCore, hg, logCatch]
  · rcases hq with hq | hq | ⟨p, hp, hex⟩
    · have hg : getI18nFilePath env = none := by
        simp [getI18nFilePath, hdb, hq]
      simp [onBeforeBuild, onBeforeBuildCore, hg, logCatch]
    · have hg : getI18nFilePath env = none := by
        simp [getI18nFilePath, hdb, hq]
      simp [onBeforeBuild, onBeforeBuildCore, hg, logCatch]
    · by_cases hp0 : p = ""
      · have hg : getI18nFilePath env = none := by
          simp [getI18nFilePath, hdb, hp, hp0]
        simp [onBeforeBuild, onBeforeBuildCore, hg, logCatch]
      · have hg : getI18nFilePath env = some p := by
          simp [getI18nFilePath, hdb, hp, hp0]
        simp [onBeforeBuild, onBeforeBuildCore, hg, hex, logCatch]

theorem onBeforeBuild_early_return_witness :
    onBeforeBuild envBase stEmpty = (stEmpty, Except.ok ()) :=
  onBeforeBuild_early_return envBase stEmpty (Or.inl (Or.inl rfl))

/-! ### C8 — localization-file restoration falls back to the in-memory data -/

/-- C8: with `BackupInfo` set, restoration of the localization file succeeds
both ways: when the on-disk backup is gone, the original is rewritten as the
serialization of `BackupInfo.originalData` and the backup record is cleared;
when the backup file exists, its content is copied back verbatim. -/
theorem restoreI18nFile_restores (env : Env) (s : St) (b : BackupInfo)
    (hb : s.backupI18nInfo = some b) :
    (s.fs.existsPath b.backupPath = false →
      env.writeFails b.originalPath = false →
      (restoreI18nFile env s).backupI18nInfo = none ∧
      (restoreI18nFile env s).fs.read b.originalPath =
        some (env.stringifyI18n b.originalData))
    ∧ (∀ c, s.fs.read b.backupPath = some c →
        env.copyFails b.backupPath b.originalPath = false →
        (restoreI18nFile env s).backupI18nInfo = none ∧
        (restoreI18nFile env s).fs.read b.originalPath = some c) := by
  constructor
  · intro hex hwf
    have hval : restoreI18nFile env s =
        { (fileWriteFile env b.originalPath (env.stringifyI18n b.originalData) s).1
            with backupI18nInfo := none } := by
      simp [restoreI18nFile, hb, hex, logCatch]
    rw [hval]
    refine ⟨rfl, ?_⟩
    show ((fileWriteFile env b.originalPath _ s).1).fs.read b.originalPath = _
    simp [fileWriteFile, hwf, FS.read_setFile_self]
  · intro c hrd hcf
    have hex : s.fs.existsPath b.backupPath = true := FS.existsPath_of_read hrd
    have hval : restoreI18nFile env s =
        { { s with fs := s.fs.setFile b.originalPath c } with
            backupI18nInfo := none } := by
      simp [restoreI18nFile, hb, hex, copyFileSync, hrd, hcf, logCatch]
    rw [hval]
    exact ⟨rfl, FS.read_setFile_self _ _ _⟩

def dataC8 : I18nData :=
  { languages := [⟨"English", "en"⟩], defaultLanguage := "en", items := [] }

def bkC8 : BackupInfo :=
  { originalPath := "proj/assets/i18n-data.json"
    backupPath := "tmp/easy-i18n/moved-assets/i18n-data-backup.json"
    originalData := dataC8 }

def stC8 : St := { stEmpty with backupI18nInfo := some bkC8 }

theorem restoreI18nFile_restores_witness :
    (restoreI18nFile envBase stC8).backupI18nInfo = none ∧
    (restoreI18nFile envBase stC8).fs.read "proj/assets/i18n-data.json" =
      some (envBase.stringifyI18n dataC8) :=
  (restoreI18nFile_restores envBase stC8 bkC8 rfl).1 (by decide) rfl

/-! ### Monotonicity machinery for the restoration stage

Restoration only ever copies files and creates directories, so the set of
existing paths grows; `fsGrows` captures that, `preservesSt` additionally
records that a step leaves the two module globals alone. -/

def fsGrows (f1 f2 : FS) : Prop :=
  (∀ p, f1.existsPath p = true → f2.existsPath p = true) ∧
  (∀ p, (f1.read p).isSome = true → (f2.read p).isSome = true)

theorem fsGrows_refl (f : FS) : fsGrows f f :=
  ⟨fun _ h => h, fun _ h => h⟩

theorem fsGrows_trans {a b c : FS} (h1 : fsGrows a b) (h2 : fsGrows b c) :
    fsGrows a c :=
  ⟨fun p h => h2.1 p (h1.1 p h), fun p h => h2.2 p (h1.2 p h)⟩

theorem isSome_read_setFile (fs : FS) (p c q : String)
    (h : (fs.read q).isSome = true) : ((fs.setFile p c).read q).isSome = true := by
  by_cases hq : q = p
  · subst hq
    rw [FS.read_setFile_self]
    rfl
  · rw [FS.read_setFile_other fs c hq]
    exact h

theorem fsGrows_setFile (fs : FS) (p c : String) : fsGrows fs (fs.setFile p c) := by
  constructor
  · intro q h
    simp only [FS.existsPath, Bool.or_eq_true] at h ⊢
    rcases h with h | h
    · exact Or.inl h
    · exact Or.inr (isSome_read_setFile fs p c q h)
  · intro q h
    exact isSome_read_setFile fs p c q h

theorem fsGrows_addDir (fs : FS) (d : String) : fsGrows fs (fs.addDir d) := by
  constructor
  · intro q h
    simp only [FS.existsPath, Bool.or_eq_true, decide_eq_true_eq] at h ⊢
    rcases h with h | h
    · refine Or.inl ?_
      show q ∈ (if d ∈ fs.dirs then fs.dirs else fs.dirs ++ [d])
      split
      · exact h
      · exact List.mem_append_left _ h
    · exact Or.inr h
  · intro q h
    exact h

/-- A state step that can only add filesystem entries and leaves the moved
list and backup record untouched. -/
def preservesSt (s s' : St) : Prop :=
  fsGrows s.fs s'.fs ∧ s'.tempMovedFiles = s.tempMovedFiles ∧
    s'.backupI18nInfo = s.backupI18nInfo

theorem preservesSt_refl (s : St) : preservesSt s s :=
  ⟨fsGrows_refl _, rfl, rfl⟩

theorem preservesSt_trans {a b c : St} (h1 : preservesSt a b)
    (h2 : preservesSt b c) : preservesSt a c :=
  ⟨fsGrows_trans h1.1 h2.1, h2.2.1.trans h1.2.1, h2.2.2.trans h1.2.2⟩

theorem copyFileSync_st (env : Env) (a b : String) (s : St) :
    preservesSt s ((copyFileSync env a b s).1) := by
  cases h : s.fs.read a with
  | none => simp [copyFileSync, h, preservesSt_refl]
  | some c =>
    cases hcf : env.copyFails a b with
    | true => simp [copyFileSync, h, hcf, preservesSt_refl]
    | false =>
      simp only [copyFileSync, h, hcf, Bool.false_eq_true, if_false]
      exact ⟨fsGrows_setFile _ _ _, rfl, rfl⟩

theorem mkdirSyncRec_st (env : Env) (d : String) (s : St) :
    preservesSt s ((mkdirSyncRec env d s).1) := by
  cases h : env.mkdirFails d with
  | true => simp [mkdirSyncRec, h, preservesSt_refl]
  | false =>
    simp only [mkdirSyncRec, h, Bool.false_eq_true, if_false]
    exact ⟨fsGrows_addDir _ _, rfl, rfl⟩

theorem copyFileSync_st' {env : Env} {a b : String} {s s' : St}
    {r : Except String Unit} (h : copyFileSync env a b s = (s', r)) :
    preservesSt s s' := by
  have := copyFileSync_st env a b s
  rw [h] at this
  exact this

theorem mkdirSyncRec_st' {env : Env} {d : String} {s s' : St}
    {r : Except String Unit} (h : mkdirSyncRec env d s = (s', r)) :
    preservesSt s s' := by
  have := mkdirSyncRec_st env d s
  rw [h] at this
  exact this

theorem mem_takeWhile_pred {α : Type} {p : α → Bool} {l : List α} {x : α}
    (h : x ∈ l.takeWhile p) : p x = true := by
  induction l with
  | nil => cases h
  | cons y ys ih =>
    rw [List.takeWhile_cons] at h
    by_cases hy : p y = true
    · rw [if_pos hy] at h
      rcases List.mem_cons.mp h with rfl | h'
      · exact hy
      · exact ih h'
    · rw [if_neg hy] at h
      cases h

theorem hasChar_lastSeg_false (l : List Char) : hasChar '/' (lastSeg l) = false := by
  apply hasChar_false_of_all
  intro x hx
  have hx' : x ∈ l.reverse.takeWhile (fun c => c != '/') :=
    List.mem_reverse.mp hx
  have hp := mem_takeWhile_pred hx'
  simpa using hp

theorem lastSeg_append_slash (a b : List Char) :
    lastSeg (a ++ '/' :: b) = lastSeg b := by
  unfold lastSeg
  rw [List.reverse_append, List.reverse_cons, List.append_assoc,
    List.singleton_append, takeWhile_append_stop _ _ (by decide)]

theorem lastSeg_append_noslash (u v : List Char) (hv : hasChar '/' v = false) :
    lastSeg (u ++ v) = lastSeg u ++ v := by
  have hall : ∀ x ∈ v.reverse, (x != '/') = true :=
    fun x hx => ne_of_hasChar_false hv x (List.mem_reverse.mp hx)
  unfold lastSeg
  rw [List.reverse_append, takeWhile_append_all _ hall, List.reverse_append,
    List.reverse_reverse]

theorem string_data_append (x y : String) : (x ++ y).data = x.data ++ y.data := rfl

theorem tempPath_data_shape (dir clean assetPath : String) :
    (dir ++ "/" ++ clean ++ "_" ++ baseNameStr assetPath).data =
      dir.data ++ '/' :: ((clean.data ++ ['_']) ++ lastSeg assetPath.data) := by
  rw [string_data_append, string_data_append, string_data_append,
    string_data_append]
  show dir.data ++ ['/'] ++ clean.data ++ ['_'] ++ lastSeg assetPath.data = _
  simp [List.append_assoc]

theorem tempPath_ne_assetPath (dir clean assetPath : String) :
    dir ++ "/" ++ clean ++ "_" ++ baseNameStr assetPath ≠ assetPath := by
  intro h
  have hdata := congrArg String.data h
  rw [tempPath_data_shape] at hdata
  have hlast := congrArg lastSeg hdata
  rw [lastSeg_append_slash,
    lastSeg_append_noslash _ _ (hasChar_lastSeg_false assetPath.data),
    lastSeg_append_noslash _ ['_'] (by decide)] at hlast
  have hlen := congrArg List.length hlast
  simp [List.length_append] at hlen
  omega

theorem tempPath_ne_metaPath (dir clean assetPath : String) :
    dir ++ "/" ++ clean ++ "_" ++ baseNameStr assetPath ≠
      assetPath ++ ".meta" := by
  intro h
  have hdata := congrArg String.data h
  rw [tempPath_data_shape, string_data_append] at hdata
  have hlast := congrArg lastSeg hdata
  rw [lastSeg_append_slash,
    lastSeg_append_noslash _ _ (hasChar_lastSeg_false assetPath.data),
    lastSeg_append_noslash _ ['_'] (by decide),
    lastSeg_append_noslash _ (".meta" : String).data (by decide)] at hlast
  have hcnt := congrArg (List.count '_') hlast
  simp [List.count_append] at hcnt
  omega

theorem deleteAsset_read_other {env : Env} {url assetPath q : String} {s : St}
    (h1 : q ≠ assetPath) (h2 : q ≠ assetPath ++ ".meta") :
    (deleteAsset env url assetPath s).fs.read q = s.fs.read q := by
  cases hok : env.deleteAssetOk url with
  | false => simp [deleteAsset, hok]
  | true =>
    simp only [deleteAsset, hok, if_true]
    rw [FS.read_removeFile_other _ h2, FS.read_removeFile_other _ h1]

theorem deleteAsset_list (env : Env) (url assetPath : String) (s : St) :
    (deleteAsset env url assetPath s).tempMovedFiles = s.tempMovedFiles := by
  cases hok : env.deleteAssetOk url with
  | false => simp [deleteAsset, hok]
  | true => simp [deleteAsset, hok]

theorem logCatch_fst {α : Type} (r : St × Except String α) (d : α) :
    (logCatch r d).1 = r.1 := by
  obtain ⟨s, e⟩ := r
  cases e <;> rfl

theorem copyFileSync_ok_reads {env : Env} {a b : String} {s s' : St} {u : Unit}
    (h : copyFileSync env a b s = (s', Except.ok u)) :
    preservesSt s s' ∧ (s'.fs.read b).isSome = true := by
  cases hr : s.fs.read a with
  | none =>
    simp only [copyFileSync, hr] at h
    have := congrArg Prod.snd h
    simp at this
  | some c =>
    simp only [copyFileSync, hr] at h
    by_cases hcf : env.copyFails a b = true
    · rw [if_pos hcf] at h
      have := congrArg Prod.snd h
      simp at this
    · rw [if_neg hcf] at h
      injection h with h1 h2
      subst h1
      refine ⟨⟨fsGrows_setFile _ _ _, rfl, rfl⟩, ?_⟩
      show ((s.fs.setFile b c).read b).isSome = true
      rw [FS.read_setFile_self]
      rfl

/-! ### C9 — eviction appends records, skips failures, never aborts -/

theorem FS.existsPath_setFile_other (fs : FS) {p q : String} (c : String)
    (h : q ≠ p) : (fs.setFile p c).existsPath q = fs.existsPath q := by
  simp only [FS.existsPath]
  rw [FS.read_setFile_other fs c h]
  rfl

theorem str_ne_append_meta (x : String) : x ≠ x ++ ".meta" := by
  intro h
  have hd := congrArg String.data h
  rw [string_data_append] at hd
  have hlen := congrArg List.length hd
  simp [List.length_append] at hlen

theorem tempMetaPath_ne_assetPath (dir clean assetPath : String) :
    dir ++ "/" ++ clean ++ "_" ++ baseNameStr assetPath ++ ".meta" ≠
      assetPath := by
  intro h
  have hdata := congrArg String.data h
  rw [string_data_append, tempPath_data_shape, List.append_assoc,
    List.cons_append] at hdata
  have hlast := congrArg lastSeg hdata
  rw [lastSeg_append_slash,
    lastSeg_append_noslash _ (".meta" : String).data (by decide),
    lastSeg_append_noslash _ _ (hasChar_lastSeg_false assetPath.data),
    lastSeg_append_noslash _ ['_'] (by decide)] at hlast
  have hlen := congrArg List.length hlast
  simp [List.length_append] at hlen
  omega

theorem tempMetaPath_ne_metaPath (dir clean assetPath : String) :
    dir ++ "/" ++ clean ++ "_" ++ baseNameStr assetPath ++ ".meta" ≠
      assetPath ++ ".meta" := by
  intro h
  have hdata := congrArg String.data h
  rw [string_data_append, tempPath_data_shape, string_data_append,
    List.append_assoc, List.cons_append] at hdata
  have hlast := congrArg lastSeg hdata
  rw [lastSeg_append_slash,
    lastSeg_append_noslash _ (".meta" : String).data (by decide),
    lastSeg_append_noslash _ _ (hasChar_lastSeg_false assetPath.data),
    lastSeg_append_noslash _ ['_'] (by decide),
    lastSeg_append_noslash _ (".meta" : String).data (by decide)] at hlast
  have hcnt := congrArg (List.count '_') hlast
  simp [List.count_append] at hcnt
  omega

/-- Forward guarantee of one eviction iteration: when the asset resolves to a
non-empty existing path, its content is readable, and neither the main copy
nor (when a meta file exists) the sidecar copy faults, the iteration DOES
append a record — carrying the cleaned uuid, the original path and the staged
path — and the staged file (and staged sidecar, when a meta file exists) is
present in the resulting state. -/
theorem evictOne_appends (env : Env) (dir : String) (s : St) (u : String)
    (info : AssetInfo) (assetPath : String)
    (hai : env.queryAssetInfo (cleanUuidOf u) = some info)
    (hres : (if (match Option.map env.assetDbUrlToPath info.url with
                 | none => true
                 | some p => decide (p = "") || !s.fs.existsPath p) = true
             then env.queryPath info.uuid
             else Option.map env.assetDbUrlToPath info.url) = some assetPath)
    (hne : assetPath ≠ "")
    (hread : (s.fs.read assetPath).isSome = true)
    (hcf : env.copyFails assetPath
      (dir ++ "/" ++ cleanUuidOf u ++ "_" ++ baseNameStr assetPath) = false)
    (hmetacf : env.copyFails (assetPath ++ ".meta")
      (dir ++ "/" ++ cleanUuidOf u ++ "_" ++ baseNameStr assetPath ++ ".meta")
        = false)
    (hmetaread : s.fs.existsPath (assetPath ++ ".meta") = true →
      (s.fs.read (assetPath ++ ".meta")).isSome = true) :
    ∃ entry : MovedFileInfo,
      (evictOne env dir s u).tempMovedFiles = s.tempMovedFiles ++ [entry] ∧
      entry.uuid = some (cleanUuidOf u) ∧
      entry.originalPath = assetPath ∧
      entry.tempPath =
        dir ++ "/" ++ cleanUuidOf u ++ "_" ++ baseNameStr assetPath ∧
      ((evictOne env dir s u).fs.read
        (dir ++ "/" ++ cleanUuidOf u ++ "_" ++ baseNameStr assetPath)).isSome
          = true ∧
      (s.fs.existsPath (assetPath ++ ".meta") = true →
        entry.tempMetaPath = some (dir ++ "/" ++ cleanUuidOf u ++ "_" ++
          baseNameStr assetPath ++ ".meta") ∧
        ((evictOne env dir s u).fs.read
          (dir ++ "/" ++ cleanUuidOf u ++ "_" ++ baseNameStr assetPath ++
            ".meta")).isSome = true) ∧
      (s.fs.existsPath (assetPath ++ ".meta") = false →
        entry.tempMetaPath = none) := by
  obtain ⟨c, hc⟩ := Option.isSome_iff_exists.mp hread
  have hexA : s.fs.existsPath assetPath = true := by
    simp only [FS.existsPath, Bool.or_eq_true]
    right
    rw [hc]
    rfl
  have hPA := tempPath_ne_assetPath dir (cleanUuidOf u) assetPath
  have hPM := tempPath_ne_metaPath dir (cleanUuidOf u) assetPath
  have hTMA := tempMetaPath_ne_assetPath dir (cleanUuidOf u) assetPath
  have hTMM := tempMetaPath_ne_metaPath dir (cleanUuidOf u) assetPath
  have hPTM : (dir ++ "/" ++ cleanUuidOf u ++ "_" ++ baseNameStr assetPath) ≠
      dir ++ "/" ++ cleanUuidOf u ++ "_" ++ baseNameStr assetPath ++ ".meta" :=
    str_ne_append_meta _
  have hcopy1 : copyFileSync env assetPath
      (dir ++ "/" ++ cleanUuidOf u ++ "_" ++ baseNameStr assetPath) s =
      ({ s with fs := s.fs.setFile (dir ++ "/" ++ cleanUuidOf u ++ "_" ++ baseNameStr assetPath) c }, Except.ok ()) := by
    simp [copyFileSync, hc, hcf]
  have hfst : evictOne env dir s u = (evictOneCore env dir s u).1 := by
    unfold evictOne
    rw [logCatch_fst]
  rw [hfst]
  unfold evictOneCore
  dsimp only
  split
  · rename_i heqA
    exact Option.noConfusion (hai.symm.trans heqA)
  · rename_i assetInfo heqA
    injection hai.symm.trans heqA with hinfo
    subst hinfo
    split
    · rename_i heqap
      exact Option.noConfusion (hres.symm.trans heqap)
    · rename_i ap heqap
      injection hres.symm.trans heqap with hap
      subst hap
      split
      · rename_i hbad
        have hvv : (decide (assetPath = "") || !s.fs.existsPath assetPath)
            = false := by
          rw [hexA]
          simp [hne]
        rw [hvv] at hbad
        exact Bool.noConfusion hbad
      · rename_i hvalid
        split
        · rename_i s1 e1 heq1
          have hx := congrArg Prod.snd (hcopy1.symm.trans heq1)
          simp at hx
        · rename_i s1 u1 heq1
          have hp1 := hcopy1.symm.trans heq1
          injection hp1 with h1 h1b
          have hsfs : s1.fs = s.fs.setFile
              (dir ++ "/" ++ cleanUuidOf u ++ "_" ++ baseNameStr assetPath) c :=
            (congrArg St.fs h1).symm
          have hlist1 : s1.tempMovedFiles = s.tempMovedFiles :=
            (congrArg St.tempMovedFiles h1).symm
          have hm1 : s1.fs.existsPath (assetPath ++ ".meta") =
              s.fs.existsPath (assetPath ++ ".meta") := by
            rw [hsfs]
            exact FS.existsPath_setFile_other s.fs c (Ne.symm hPM)
          have hr1 : s1.fs.read
              (dir ++ "/" ++ cleanUuidOf u ++ "_" ++ baseNameStr assetPath)
                = some c := by
            rw [hsfs]
            exact FS.read_setFile_self _ _ _
          have hr1M : s1.fs.read (assetPath ++ ".meta") =
              s.fs.read (assetPath ++ ".meta") := by
            rw [hsfs]
            exact FS.read_setFile_other s.fs c (Ne.symm hPM)
          split
          · rename_i s2 e2 heq2
            by_cases hM : s.fs.existsPath (assetPath ++ ".meta") = true
            · have hme1 : s1.fs.existsPath (assetPath ++ ".meta") = true :=
                hm1.trans hM
              rw [if_pos hme1] at heq2
              obtain ⟨m, hm⟩ := Option.isSome_iff_exists.mp (hmetaread hM)
              have hr1m : s1.fs.read (assetPath ++ ".meta") = some m := by
                rw [hr1M]
                exact hm
              have hcopy2 : copyFileSync env (assetPath ++ ".meta")
                  (dir ++ "/" ++ cleanUuidOf u ++ "_" ++ baseNameStr assetPath
                    ++ ".meta") s1 =
                  ({ s1 with fs := s1.fs.setFile (dir ++ "/" ++ cleanUuidOf u ++ "_" ++ baseNameStr assetPath ++ ".meta") m }, Except.ok ()) := by
                simp [copyFileSync, hr1m, hmetacf]
              have hx := congrArg Prod.snd (hcopy2.symm.trans heq2)
              simp at hx
            · have hme1' : ¬(s1.fs.existsPath (assetPath ++ ".meta") = true) := by
                rw [hm1]
                exact hM
              rw [if_neg hme1'] at heq2
              have hx := congrArg Prod.snd heq2
              simp at hx
          · rename_i s2 u2 heq2
            by_cases hM : s.fs.existsPath (assetPath ++ ".meta") = true
            · have hme1 : s1.fs.existsPath (assetPath ++ ".meta") = true :=
                hm1.trans hM
              rw [if_pos hme1] at heq2
              obtain ⟨m, hm⟩ := Option.isSome_iff_exists.mp (hmetaread hM)
              have hr1m : s1.fs.read (assetPath ++ ".meta") = some m := by
                rw [hr1M]
                exact hm
              have hcopy2 : copyFileSync env (assetPath ++ ".meta")
                  (dir ++ "/" ++ cleanUuidOf u ++ "_" ++ baseNameStr assetPath
                    ++ ".meta") s1 =
                  ({ s1 with fs := s1.fs.setFile (dir ++ "/" ++ cleanUuidOf u ++ "_" ++ baseNameStr assetPath ++ ".meta") m }, Except.ok ()) := by
                simp [copyFileSync, hr1m, hmetacf]
              have hp2 := hcopy2.symm.trans heq2
              injection hp2 with h2 h2b
              have hsfs2 : s2.fs = s1.fs.setFile
                  (dir ++ "/" ++ cleanUuidOf u ++ "_" ++ baseNameStr assetPath
                    ++ ".meta") m :=
                (congrArg St.fs h2).symm
              have hlist2 : s2.tempMovedFiles = s1.tempMovedFiles :=
                (congrArg St.tempMovedFiles h2).symm
              have hr2P : s2.fs.read
                  (dir ++ "/" ++ cleanUuidOf u ++ "_" ++ baseNameStr assetPath)
                    = some c := by
                rw [hsfs2, FS.read_setFile_other s1.fs m hPTM]
                exact hr1
              have hr2TM : s2.fs.read
                  (dir ++ "/" ++ cleanUuidOf u ++ "_" ++ baseNameStr assetPath
                    ++ ".meta") = some m := by
                rw [hsfs2]
                exact FS.read_setFile_self _ _ _
              split
              · rename_i url hurl
                refine ⟨⟨assetPath,
                    dir ++ "/" ++ cleanUuidOf u ++ "_" ++ baseNameStr assetPath,
                    (if s2.fs.existsPath (assetPath ++ ".meta") = true
                      then some (assetPath ++ ".meta") else none),
                    (if s1.fs.existsPath (assetPath ++ ".meta") = true
                      then some (dir ++ "/" ++ cleanUuidOf u ++ "_" ++
                        baseNameStr assetPath ++ ".meta") else none),
                    some (cleanUuidOf u), info.url⟩,
                  ?_, rfl, rfl, rfl, ?_, ?_, ?_⟩
                · show (deleteAsset env url assetPath _).tempMovedFiles =
                    s.tempMovedFiles ++ _
                  rw [deleteAsset_list]
                  show s2.tempMovedFiles ++ _ = s.tempMovedFiles ++ _
                  rw [hlist2, hlist1]
                · show ((deleteAsset env url assetPath _).fs.read
                    (dir ++ "/" ++ cleanUuidOf u ++ "_" ++
                      baseNameStr assetPath)).isSome = true
                  rw [deleteAsset_read_other hPA hPM]
                  show (s2.fs.read (dir ++ "/" ++ cleanUuidOf u ++ "_" ++
                    baseNameStr assetPath)).isSome = true
                  rw [hr2P]
                  rfl
                · intro _
                  constructor
                  · show (if s1.fs.existsPath (assetPath ++ ".meta") = true
                      then some (dir ++ "/" ++ cleanUuidOf u ++ "_" ++
                        baseNameStr assetPath ++ ".meta") else none) = some _
                    rw [if_pos hme1]
                  · show ((deleteAsset env url assetPath _).fs.read
                      (dir ++ "/" ++ cleanUuidOf u ++ "_" ++
                        baseNameStr assetPath ++ ".meta")).isSome = true
                    rw [deleteAsset_read_other hTMA hTMM]
                    show (s2.fs.read (dir ++ "/" ++ cleanUuidOf u ++ "_" ++
                      baseNameStr assetPath ++ ".meta")).isSome = true
                    rw [hr2TM]
                    rfl
                · intro h
                  rw [h] at hM
                  exact Bool.noConfusion hM
              · rename_i hurl
                refine ⟨⟨assetPath,
                    dir ++ "/" ++ cleanUuidOf u ++ "_" ++ baseNameStr assetPath,
                    (if s2.fs.existsPath (assetPath ++ ".meta") = true
                      then some (assetPath ++ ".meta") else none),
                    (if s1.fs.existsPath (assetPath ++ ".meta") = true
                      then some (dir ++ "/" ++ cleanUuidOf u ++ "_" ++
                        baseNameStr assetPath ++ ".meta") else none),
                    some (cleanUuidOf u), info.url⟩,
                  ?_, rfl, rfl, rfl, ?_, ?_, ?_⟩
                · show s2.tempMovedFiles ++ _ = s.tempMovedFiles ++ _
                  rw [hlist2, hlist1]
                · show (s2.fs.read (dir ++ "/" ++ cleanUuidOf u ++ "_" ++
                    baseNameStr assetPath)).isSome = true
                  rw [hr2P]
                  rfl
                · intro _
                  constructor
                  · show (if s1.fs.existsPath (assetPath ++ ".meta") = true
                      then some (dir ++ "/" ++ cleanUuidOf u ++ "_" ++
                        baseNameStr assetPath ++ ".meta") else none) = some _
                    rw [if_pos hme1]
                  · show (s2.fs.read (dir ++ "/" ++ cleanUuidOf u ++ "_" ++
                      baseNameStr assetPath ++ ".meta")).isSome = true
                    rw [hr2TM]
                    rfl
                · intro h
                  rw [h] at hM
                  exact Bool.noConfusion hM
            · have hme1' : ¬(s1.fs.existsPath (assetPath ++ ".meta") = true) := by
                rw [hm1]
                exact hM
              rw [if_neg hme1'] at heq2
              injection heq2 with h2 h2b
              have hsfs2 : s2.fs = s1.fs := (congrArg St.fs h2).symm
              have hlist2 : s2.tempMovedFiles = s1.tempMovedFiles :=
                (congrArg St.tempMovedFiles h2).symm
              have hr2P : s2.fs.read
                  (dir ++ "/" ++ cleanUuidOf u ++ "_" ++ baseNameStr assetPath)
                    = some c := by
                rw [hsfs2]
                exact hr1
              split
              · rename_i url hurl
                refine ⟨⟨assetPath,
                    dir ++ "/" ++ cleanUuidOf u ++ "_" ++ baseNameStr assetPath,
                    (if s2.fs.existsPath (assetPath ++ ".meta") = true
                      then some (assetPath ++ ".meta") else none),
                    (if s1.fs.existsPath (assetPath ++ ".meta") = true
                      then some (dir ++ "/" ++ cleanUuidOf u ++ "_" ++
                        baseNameStr assetPath ++ ".meta") else none),
                    some (cleanUuidOf u), info.url⟩,
                  ?_, rfl, rfl, rfl, ?_, ?_, ?_⟩
                · show (deleteAsset env url assetPath _).tempMovedFiles =
                    s.tempMovedFiles ++ _
                  rw [deleteAsset_list]
                  show s2.tempMovedFiles ++ _ = s.tempMovedFiles ++ _
                  rw [hlist2, hlist1]
                · show ((deleteAsset env url assetPath _).fs.read
                    (dir ++ "/" ++ cleanUuidOf u ++ "_" ++
                      baseNameStr assetPath)).isSome = true
                  rw [deleteAsset_read_other hPA hPM]
                  show (s2.fs.read (dir ++ "/" ++ cleanUuidOf u ++ "_" ++
                    baseNameStr assetPath)).isSome = true
                  rw [hr2P]
                  rfl
                · intro h
                  exact absurd h hM
                · intro _
                  show (if s1.fs.existsPath (assetPath ++ ".meta") = true
                    then some (dir ++ "/" ++ cleanUuidOf u ++ "_" ++
                      baseNameStr assetPath ++ ".meta") else none) = none
                  rw [if_neg hme1']
              · rename_i hurl
                refine ⟨⟨assetPath,
                    dir ++ "/" ++ cleanUuidOf u ++ "_" ++ baseNameStr assetPath,
                    (if s2.fs.existsPath (assetPath ++ ".meta") = true
                      then some (assetPath ++ ".meta") else none),
                    (if s1.fs.existsPath (assetPath ++ ".meta") = true
                      then some (dir ++ "/" ++ cleanUuidOf u ++ "_" ++
                        baseNameStr assetPath ++ ".meta") else none),
                    some (cleanUuidOf u), info.url⟩,
                  ?_, rfl, rfl, rfl, ?_, ?_, ?_⟩
                · show s2.tempMovedFiles ++ _ = s.tempMovedFiles ++ _
                  rw [hlist2, hlist1]
                · show (s2.fs.read (dir ++ "/" ++ cleanUuidOf u ++ "_" ++
                    baseNameStr assetPath)).isSome = true
                  rw [hr2P]
                  rfl
                · intro h
                  exact absurd h hM
                · intro _
                  show (if s1.fs.existsPath (assetPath ++ ".meta") = true
                    then some (dir ++ "/" ++ cleanUuidOf u ++ "_" ++
                      baseNameStr assetPath ++ ".meta") else none) = none
                  rw [if_neg hme1']

/-- The full characterization of one eviction iteration's effect on the
moved-file list: either it is left unchanged (a skipped or failed resource),
or exactly one record is appended, carrying the cleaned uuid and a staged
path at which the copied file is still present in the resulting state. -/
theorem evictOne_step (env : Env) (dir : String) (s : St) (u : String) :
    (evictOne env dir s u).tempMovedFiles = s.tempMovedFiles ∨
    ∃ entry : MovedFileInfo,
      (evictOne env dir s u).tempMovedFiles = s.tempMovedFiles ++ [entry] ∧
      entry.uuid = some (cleanUuidOf u) ∧
      entry.tempPath =
        dir ++ "/" ++ cleanUuidOf u ++ "_" ++ baseNameStr entry.originalPath ∧
      ((evictOne env dir s u).fs.read entry.tempPath).isSome = true := by
  have hfst : evictOne env dir s u = (evictOneCore env dir s u).1 := by
    unfold evictOne
    rw [logCatch_fst]
  rw [hfst]
  unfold evictOneCore
  dsimp only
  split
  · exact Or.inl rfl
  · rename_i assetInfo heqai
    split
    · exact Or.inl rfl
    · rename_i assetPath heqap
      split
      · exact Or.inl rfl
      · rename_i hvalid
        split
        · rename_i s1 e1 heq1
          exact Or.inl (copyFileSync_st' heq1).2.1
        · rename_i s1 u1 heq1
          have h1 := copyFileSync_ok_reads heq1
          split
          · rename_i s2 e2 heq2
            by_cases hme : s1.fs.existsPath (assetPath ++ ".meta") = true
            · rw [if_pos hme] at heq2
              exact Or.inl ((preservesSt_trans h1.1 (copyFileSync_st' heq2)).2.1)
            · rw [if_neg hme] at heq2
              simp at heq2
          · rename_i s2 u2 heq2
            have h2 : preservesSt s1 s2 := by
              by_cases hme : s1.fs.existsPath (assetPath ++ ".meta") = true
              · rw [if_pos hme] at heq2
                exact copyFileSync_st' heq2
              · rw [if_neg hme] at heq2
                injection heq2 with hA hB
                subst hA
                exact preservesSt_refl s1
            have hstaged2 : (s2.fs.read
                (dir ++ "/" ++ cleanUuidOf u ++ "_" ++ baseNameStr assetPath)).isSome
                = true := h2.1.2 _ h1.2
            refine Or.inr ?_
            split
            · rename_i url hurl
              refine ⟨⟨assetPath,
                  dir ++ "/" ++ cleanUuidOf u ++ "_" ++ baseNameStr assetPath,
                  (if s2.fs.existsPath (assetPath ++ ".meta") = true
                    then some (assetPath ++ ".meta") else none),
                  (if s1.fs.existsPath (assetPath ++ ".meta") = true
                    then some (dir ++ "/" ++ cleanUuidOf u ++ "_" ++
                      baseNameStr assetPath ++ ".meta") else none),
                  some (cleanUuidOf u), assetInfo.url⟩, ?_, rfl, rfl, ?_⟩
              · show (deleteAsset env url assetPath _).tempMovedFiles =
                  s.tempMovedFiles ++ _
                rw [deleteAsset_list]
                show s2.tempMovedFiles ++ _ = s.tempMovedFiles ++ _
                rw [h2.2.1, h1.1.2.1]
              · show ((deleteAsset env url assetPath _).fs.read
                  (dir ++ "/" ++ cleanUuidOf u ++ "_" ++ baseNameStr assetPath)).isSome
                    = true
                rw [deleteAsset_read_other
                  (tempPath_ne_assetPath dir (cleanUuidOf u) assetPath)
                  (tempPath_ne_metaPath dir (cleanUuidOf u) assetPath)]
                exact hstaged2
            · refine ⟨⟨assetPath,
                  dir ++ "/" ++ cleanUuidOf u ++ "_" ++ baseNameStr assetPath,
                  (if s2.fs.existsPath (assetPath ++ ".meta") = true
                    then some (assetPath ++ ".meta") else none),
                  (if s1.fs.existsPath (assetPath ++ ".meta") = true
                    then some (dir ++ "/" ++ cleanUuidOf u ++ "_" ++
                      baseNameStr assetPath ++ ".meta") else none),
                  some (cleanUuidOf u), assetInfo.url⟩, ?_, rfl, rfl, ?_⟩
              · show s2.tempMovedFiles ++ _ = s.tempMovedFiles ++ _
                rw [h2.2.1, h1.1.2.1]
              · exact hstaged2

theorem evictAll_append (env : Env) (dir : String) :
    ∀ (xs ys : List String) (s : St),
      evictAll env dir (xs ++ ys) s = evictAll env dir ys (evictAll env dir xs s) := by
  intro xs
  induction xs with
  | nil => intro ys s; rfl
  | cons x xs ih => intro ys s; exact ih ys (evictOne env dir s x)

theorem moveResourcesToTemp_eq (env : Env) (l : List String) (dir : String)
    (s : St) : moveResourcesToTemp env l dir s = evictAll env dir l s := by
  cases l with
  | nil => rfl
  | cons x xs => rfl

/-- C9 amended: the eviction loop processes every resource — a failure on one
uuid never aborts the remaining ones (processing literally composes across any
split of the list); each iteration appends at most one record, and a record is
appended only after both staged copies succeeded, so its staged file exists in
the resulting state; conversely, when the asset resolves to a non-empty
existing readable path and neither the main copy nor (when a meta file exists)
the sidecar copy faults, a record IS appended, with its staged file — and the
staged sidecar, when a meta file exists — present in the resulting state.  A
meta-copy failure after the main copy, however, leaves a staged main file
behind with NO record (see the counterexample). -/
theorem moveResources_eviction_props (env : Env) (dir : String) :
    (∀ (xs ys : List String) (s : St),
      moveResourcesToTemp env (xs ++ ys) dir s =
        evictAll env dir ys (evictAll env dir xs s))
    ∧ (∀ (l : List String) (s : St),
        moveResourcesToTemp env l dir s = evictAll env dir l s)
    ∧ (∀ (u : String) (s : St),
        (evictOne env dir s u).tempMovedFiles = s.tempMovedFiles ∨
        ∃ entry : MovedFileInfo,
          (evictOne env dir s u).tempMovedFiles = s.tempMovedFiles ++ [entry] ∧
          entry.uuid = some (cleanUuidOf u) ∧
          entry.tempPath =
            dir ++ "/" ++ cleanUuidOf u ++ "_" ++ baseNameStr entry.originalPath ∧
          ((evictOne env dir s u).fs.read entry.tempPath).isSome = true)
    ∧ (∀ (u : String) (s : St) (info : AssetInfo) (assetPath : String),
        env.queryAssetInfo (cleanUuidOf u) = some info →
        (if (match Option.map env.assetDbUrlToPath info.url with
             | none => true
             | some p => decide (p = "") || !s.fs.existsPath p) = true
         then env.queryPath info.uuid
         else Option.map env.assetDbUrlToPath info.url) = some assetPath →
        assetPath ≠ "" →
        (s.fs.read assetPath).isSome = true →
        env.copyFails assetPath
          (dir ++ "/" ++ cleanUuidOf u ++ "_" ++ baseNameStr assetPath) = false →
        env.copyFails (assetPath ++ ".meta")
          (dir ++ "/" ++ cleanUuidOf u ++ "_" ++ baseNameStr assetPath ++
            ".meta") = false →
        (s.fs.existsPath (assetPath ++ ".meta") = true →
          (s.fs.read (assetPath ++ ".meta")).isSome = true) →
        ∃ entry : MovedFileInfo,
          (evictOne env dir s u).tempMovedFiles = s.tempMovedFiles ++ [entry] ∧
          entry.uuid = some (cleanUuidOf u) ∧
          entry.originalPath = assetPath ∧
          entry.tempPath =
            dir ++ "/" ++ cleanUuidOf u ++ "_" ++ baseNameStr assetPath ∧
          ((evictOne env dir s u).fs.read
            (dir ++ "/" ++ cleanUuidOf u ++ "_" ++ baseNameStr assetPath)).isSome
              = true ∧
          (s.fs.existsPath (assetPath ++ ".meta") = true →
            entry.tempMetaPath = some (dir ++ "/" ++ cleanUuidOf u ++ "_" ++
              baseNameStr assetPath ++ ".meta") ∧
            ((evictOne env dir s u).fs.read
              (dir ++ "/" ++ cleanUuidOf u ++ "_" ++ baseNameStr assetPath ++
                ".meta")).isSome = true) ∧
          (s.fs.existsPath (assetPath ++ ".meta") = false →
            entry.tempMetaPath = none)) :=
  ⟨fun xs ys s => by rw [moveResourcesToTemp_eq, evictAll_append],
    fun l s => moveResourcesToTemp_eq env l dir s,
    fun u s => evictOne_step env dir s u,
    fun u s info assetPath hai hres hne hread hcf hmetacf hmetaread =>
      evictOne_appends env dir s u info assetPath hai hres hne hread hcf
        hmetacf hmetaread⟩

/-- Counterexample to C9 as stated: the sidecar meta copy fails after the main
file was already copied into staging — the resource's file IS in staging but
no `MovedFileRecord` was appended. -/
def envC9 : Env :=
  { envBase with
    queryAssetInfo := fun u =>
      if u = "u1" then some ⟨"u1", some "db://assets/a.png"⟩ else none
    assetDbUrlToPath := fun _ => "proj/assets/a.png"
    copyFails := fun a _ => a == "proj/assets/a.png.meta" }

def stC9 : St :=
  { stEmpty with
    fs := { dirs := []
            files := [("proj/assets/a.png", "PNG"),
                      ("proj/assets/a.png.meta", "META")] } }

theorem evict_staged_without_record_cex :
    ((moveResourcesToTemp envC9 ["u1"] (tempAssetsDirOf envC9) stC9).fs.read
      "tmp/easy-i18n/moved-assets/u1_a.png").isSome = true ∧
    (moveResourcesToTemp envC9 ["u1"] (tempAssetsDirOf envC9)
      stC9).tempMovedFiles = [] := by
  constructor <;> rfl

def envW9 : Env :=
  { envBase with
    queryAssetInfo := fun v =>
      if v = "u3" then some ⟨"u3", some "db://assets/c.png"⟩ else none
    assetDbUrlToPath := fun _ => "proj/assets/c.png" }

def stW9 : St :=
  { stEmpty with
    fs := { dirs := []
            files := [("proj/assets/c.png", "PNG"),
                      ("proj/assets/c.png.meta", "META")] } }

theorem moveResources_eviction_props_witness :
    ∃ entry : MovedFileInfo,
      (evictOne envW9 "tmp/easy-i18n/moved-assets" stW9 "u3").tempMovedFiles =
        stW9.tempMovedFiles ++ [entry] ∧
      entry.uuid = some (cleanUuidOf "u3") ∧
      ((evictOne envW9 "tmp/easy-i18n/moved-assets" stW9 "u3").fs.read
        ("tmp/easy-i18n/moved-assets" ++ "/" ++ cleanUuidOf "u3" ++ "_" ++
          baseNameStr "proj/assets/c.png")).isSome = true ∧
      (stW9.fs.existsPath ("proj/assets/c.png" ++ ".meta") = true →
        ((evictOne envW9 "tmp/easy-i18n/moved-assets" stW9 "u3").fs.read
          ("tmp/easy-i18n/moved-assets" ++ "/" ++ cleanUuidOf "u3" ++ "_" ++
            baseNameStr "proj/assets/c.png" ++ ".meta")).isSome = true) := by
  obtain ⟨entry, h1, h2, h3, h4, h5, h6, h7⟩ :=
    (moveResources_eviction_props envW9 "tmp/easy-i18n/moved-assets").2.2.2
      "u3" stW9 ⟨"u3", some "db://assets/c.png"⟩ "proj/assets/c.png"
      (by decide) (by decide) (by decide) (by decide) (by decide) (by decide)
      (by decide)
  exact ⟨entry, h1, h2, h5, fun hmx => (h6 hmx).2⟩

/-! ### Cleanup lemmas for C3 -/

end EasyI18n
